import Mathlib

set_option maxRecDepth 100000

/-!
Verification development for `update-gallery.py` (anatomy-icon-gallery).

The script is embedded shallowly: its regex-driven extractors, the path
normalization / fingerprinting pipeline, the redundancy detector and the
catalog / usage-scanning folds are translated into executable Lean
definitions over `List Char` (the contents of Python `str` values, compared
by code point exactly as Python does).

Modelling conventions, recorded once here:
* Python regular expressions are translated by resolving their backtracking
  behaviour on the concrete patterns of the script.  Greedy runs followed by
  a character that can never occur inside the run are deterministic; the one
  pattern needing real backtracking (the `circle` pattern) is implemented
  with an explicit rightmost-first candidate search, mirroring the greedy
  engine.
* Character classes `\s`, `\d`, `\w` are modelled on their ASCII parts; the
  script only ever scans JavaScript/TypeScript source text.
* Python floats appear only in two threshold comparisons
  (`min/max < 0.4`, `similarity >= 0.80`) and in `round(similarity, 3)`.
  These are modelled by exact integer arithmetic (cross multiplication,
  round-half-to-even on thousandths).  The float comparisons agree with the
  exact ones for every fingerprint of length below about 10^12, far beyond
  any input the script can see, so the exact model is used.
* `round(similarity, 3)` values are represented as integer thousandths: a
  reported score `s : Nat` stands for the float `s / 1000`.
-/

/-! ### Basic string machinery (Python `str` as `List Char`) -/

/-- The characters of a Python string, compared by code point. -/
abbrev Str := List Char

/-- ASCII part of Python's `str.split` / regex `\s` whitespace. -/
def pyWs (c : Char) : Bool :=
  c = ' ' || c = '\t' || c = '\n' || c = '\r' || c = '\x0b' || c = '\x0c'

/-- The single-quote character (code point 39). -/
def squote : Char := Char.ofNat 39

/-- A character matching the regex class `["\x27]`. -/
def isQuote (c : Char) : Bool := c = '"' || c = squote

/-- Does the literal `lit` occur in `s` starting at index `i`? -/
def litAt (lit : Str) (s : Str) (i : Nat) : Bool :=
  decide ((s.drop i).take lit.length = lit)

/-- Character of `s` at index `i`, if any. -/
def charAt (s : Str) (i : Nat) : Option Char :=
  (s.drop i).head?

/-- Length of the maximal run of characters satisfying `p` starting at `i`. -/
def runLen (p : Char → Bool) (s : Str) (i : Nat) : Nat :=
  ((s.drop i).takeWhile p).length

/-- Length of the maximal whitespace run starting at `i` (regex `\s*`). -/
def wsLen (s : Str) (i : Nat) : Nat := runLen pyWs s i

/-- Python slice `s[a:b]` (for `a ≤ b`; clamps at the ends). -/
def pySlice (s : Str) (a b : Nat) : Str :=
  (s.drop a).take (b - a)

/-- Python's substring test `pat in hay`. -/
def strCont (pat : Str) : Str → Bool
  | [] => decide (pat = [])
  | c :: rest => (decide ((c :: rest).take pat.length = pat)) || strCont pat rest

/-- Drop the trailing characters satisfying `p`. -/
def dropEndWhile (p : Char → Bool) (l : Str) : Str :=
  (l.reverse.dropWhile p).reverse

/-- Python's `str.strip()` (ASCII whitespace). -/
def pyStrip (l : Str) : Str :=
  dropEndWhile pyWs (l.dropWhile pyWs)

/-- Python's `str.strip('"\x27')`: strip quote characters from both ends. -/
def stripQuotes (l : Str) : Str :=
  dropEndWhile isQuote (l.dropWhile isQuote)

/-- Leftmost-match search: try `m` at `i, i+1, …` while fuel lasts. -/
def searchAux (m : Nat → Option α) : Nat → Nat → Option α
  | 0, _ => none
  | fuel + 1, i =>
    match m i with
    | some r => some r
    | none => searchAux m fuel (i + 1)

/-- `re.search`: leftmost match of `m` over the whole string `s`. -/
def searchAll (s : Str) (m : Nat → Option α) : Option α :=
  searchAux m (s.length + 1) 0

/-- `re.finditer`: all non-overlapping leftmost matches; a match reports its
result and the index just past its end, where scanning resumes. -/
def finditAux (m : Nat → Option (α × Nat)) : Nat → Nat → List α
  | 0, _ => []
  | fuel + 1, i =>
    match m i with
    | some (a, e) => a :: finditAux m fuel e
    | none => finditAux m fuel (i + 1)

/-- All matches of `m` in `s` (every match of the script's patterns consumes
at least one character, so `length + 1` probes suffice). -/
def findIterAll (s : Str) (m : Nat → Option (α × Nat)) : List α :=
  finditAux m (s.length + 1) 0

/-! ### `extract_svg_from_js`: compiled React component extraction

Regex notes used below (checked against Python's backtracking engine):
a greedy run (`\d+`, `[^"\x27]+`, `\s*`, `[^}]*`) whose follow-set is
disjoint from the run's character class never backtracks, so those pieces
are deterministic scans.  In `d:\s*["\x27]([^"\x27]+)["\x27][^}]*?(?:fill:…)?`
the lazy `[^}]*?` prefers zero width and the trailing optional group can
always succeed empty, so the engine never widens the lazy run: the fill
group is captured exactly when `fill:` starts immediately after the closing
quote of the `d` value.  In the `circle` pattern the final greedy `[^}]*`
runs to the next `}` (or the end) before the optional fill group is tried,
which therefore always fails — the circle fill capture is always `None`. -/

/-- Match `KEY\s*["\x27](\d+)["\x27]` at `i`, returning the digit capture
(regex `\d` modelled as ASCII digits). -/
def numValAt (key : Str) (s : Str) (i : Nat) : Option Str :=
  if litAt key s i then
    let j := i + key.length + wsLen s (i + key.length)
    match charAt s j with
    | some c =>
      if isQuote c then
        let d := runLen Char.isDigit s (j + 1)
        if d = 0 then none
        else
          match charAt s (j + 1 + d) with
          | some c2 => if isQuote c2 then some ((s.drop (j + 1)).take d) else none
          | none => none
      else none
    | none => none
  else none

/-- Match `KEY\s*["\x27]([^"\x27]+)["\x27]` at `i`, returning the capture and
the index just past the closing quote. -/
def keyValAt (key : Str) (s : Str) (i : Nat) : Option (Str × Nat) :=
  if litAt key s i then
    let j := i + key.length + wsLen s (i + key.length)
    match charAt s j with
    | some c =>
      if isQuote c then
        let v := runLen (fun c => !(isQuote c)) s (j + 1)
        if v = 0 then none
        else
          match charAt s (j + 1 + v) with
          | some c2 =>
            if isQuote c2 then some ((s.drop (j + 1)).take v, j + 2 + v) else none
          | none => none
      else none
    | none => none
  else none

/-- `re.search(r'width:\s*["\x27](\d+)["\x27]', js)` (and `height:`). -/
def findNumAttr (key : Str) (s : Str) : Option Str :=
  searchAll s (numValAt key s)

/-- `re.search(r'viewBox:\s*["\x27]([^"\x27]+)["\x27]', js)`. -/
def findViewBox (s : Str) : Option Str :=
  searchAll s (fun i => (keyValAt "viewBox:".data s i).map Prod.fst)

/-- The optional `(?:fill:\s*([^,}]+?)\s*[,}])?` group tried at `i`.  With
the greedy `\s*` at its maximum, the lazy capture runs from the first
non-whitespace character to the first `,`/`}`, stopping at the earliest
point from which `\s*[,}]` completes — i.e. with its trailing whitespace
removed.  If the first non-whitespace character is already the terminator,
the greedy `\s*` backs off one character and the capture is that single
whitespace character.  Returns the capture and the index past the
terminator. -/
def fillGroupAt (s : Str) (i : Nat) : Option (Str × Nat) :=
  if litAt "fill:".data s i then
    let w := wsLen s (i + 5)
    let j := i + 5 + w
    let r := runLen (fun c => !(c = ',' || c = '}')) s j
    if r = 0 then
      match charAt s j with
      | some _ => if w = 0 then none else some ((s.drop (j - 1)).take 1, j + 1)
      | none => none
    else
      match charAt s (j + r) with
      | some _ => some (dropEndWhile pyWs ((s.drop j).take r), j + r + 1)
      | none => none
  else none

/-- One match of the path pattern: capture 1 (`d`), optional capture 2
(raw fill), and the match span (used for the `fillRule` context window). -/
structure PathM where
  d : Str
  rawFill : Option Str
  mStart : Nat
  mEnd : Nat
deriving Repr, DecidableEq

/-- Match `d:\s*["\x27]([^"\x27]+)["\x27][^}]*?(?:fill:\s*([^,}]+?)\s*[,}])?`
at `i` (see the regex notes above). -/
def pathMatchAt (s : Str) (i : Nat) : Option PathM :=
  if litAt "d:".data s i then
    let j := i + 2 + wsLen s (i + 2)
    match charAt s j with
    | some c =>
      if isQuote c then
        let v := runLen (fun c => !(isQuote c)) s (j + 1)
        if v = 0 then none
        else
          match charAt s (j + 1 + v) with
          | some c2 =>
            if isQuote c2 then
              let e0 := j + 2 + v
              let dval := (s.drop (j + 1)).take v
              match fillGroupAt s e0 with
              | some (f, e1) => some ⟨dval, some f, i, e1⟩
              | none => some ⟨dval, none, i, e0⟩
            else none
          | none => none
      else none
    | none => none
  else none

/-- All path matches of `js_content` in document order. -/
def pathMatches (s : Str) : List PathM :=
  findIterAll s (fun i => (pathMatchAt s i).map (fun m => (m, m.mEnd)))

/-- `fill = m.group(2).strip().strip('"\x27') if m.group(2) else "#333"`, then
the `var(` / sentinel normalization. -/
def jsPathFill (raw : Option Str) : Str :=
  match raw with
  | none => "#333".data
  | some g =>
    let fill := stripQuotes (pyStrip g)
    if strCont "var(".data fill || fill = "void 0".data || fill = "fill".data
        || fill = "undefined".data then
      "#333".data
    else fill

/-- The emitted `<path …/>` string for one match of `js_content`. -/
def pathElemStr (s : Str) (m : PathM) : Str :=
  let fill := jsPathFill m.rawFill
  let context := pySlice s (m.mStart - 200) m.mEnd
  let fillRuleAttr :=
    if strCont "fillRule".data context then
      " fill-rule=\"evenodd\" clip-rule=\"evenodd\"".data
    else []
  "<path d=\"".data ++ m.d ++ "\" fill=\"".data ++ fill ++ "\"".data ++ fillRuleAttr
    ++ "/>".data

/-- The `<path>` elements extracted from `js_content`, in discovery order. -/
def path_elements (s : Str) : List Str :=
  (pathMatches s).map (pathElemStr s)

/-- One match of the circle pattern. -/
structure CircleM where
  cx : Str
  cy : Str
  r : Str
  rawFill : Option Str
  mEnd : Nat
deriving Repr, DecidableEq

/-- Candidate end points for a greedy `[^}]*` starting at `i`, rightmost
first (the order in which the backtracking engine offers them). -/
def candDesc (s : Str) (i : Nat) : List Nat :=
  let r := runLen (fun c => !(c = '}')) s i
  (List.range (r + 1)).reverse.map (i + ·)

/-- First success of `f` over a candidate list. -/
def firstSome (f : Nat → Option α) : List Nat → Option α
  | [] => none
  | p :: ps =>
    match f p with
    | some x => some x
    | none => firstSome f ps

/-- Match the circle pattern
`jsx\("circle",\s*\{[^}]*cx:…[^}]*cy:…[^}]*r:…[^}]*(?:fill:…)?` at `i`. -/
def circleMatchAt (s : Str) (i : Nat) : Option CircleM :=
  if litAt "jsx(\"circle\",".data s i then
    match charAt s (i + 13 + wsLen s (i + 13)) with
    | some c =>
      if c = '{' then
        firstSome (fun p1 =>
          match keyValAt "cx:".data s p1 with
          | none => none
          | some (cx, q1) =>
            firstSome (fun p2 =>
              match keyValAt "cy:".data s p2 with
              | none => none
              | some (cy, q2) =>
                firstSome (fun p3 =>
                  match keyValAt "r:".data s p3 with
                  | none => none
                  | some (rv, q3) =>
                    match keyValAt "fill:".data s
                        (q3 + runLen (fun c => !(c = '}')) s q3) with
                    | some (f, e) => some ⟨cx, cy, rv, some f, e⟩
                    | none =>
                      some ⟨cx, cy, rv, none, q3 + runLen (fun c => !(c = '}')) s q3⟩)
                  (candDesc s q2))
              (candDesc s q1))
          (candDesc s (i + 13 + wsLen s (i + 13) + 1))
      else none
    | none => none
  else none

/-- All circle matches of `js_content` in document order. -/
def circleMatches (s : Str) : List CircleM :=
  findIterAll s (fun i => (circleMatchAt s i).map (fun m => (m, m.mEnd)))

/-- `fill = m.group(4) or "#333"`, then the `var(` normalization. -/
def jsCircleFill (raw : Option Str) : Str :=
  let fill := raw.getD "#333".data
  if strCont "var(".data fill then "#333".data else fill

/-- The emitted `<circle …/>` string for one match. -/
def circleElemStr (m : CircleM) : Str :=
  "<circle cx=\"".data ++ m.cx ++ "\" cy=\"".data ++ m.cy ++ "\" r=\"".data
    ++ m.r ++ "\" fill=\"".data ++ jsCircleFill m.rawFill ++ "\"/>".data

/-- The `<circle>` elements extracted from `js_content`. -/
def circle_elements (s : Str) : List Str :=
  (circleMatches s).map circleElemStr

/-- The `elements` list of `extract_svg_from_js`. -/
def jsElements (s : Str) : List Str :=
  path_elements s ++ circle_elements s

/-- `extract_svg_from_js(js_content)`. -/
def extract_svg_from_js (s : Str) : Option Str :=
  match findViewBox s with
  | none => none
  | some viewbox =>
    let width := (findNumAttr "width:".data s).getD "24".data
    let height := (findNumAttr "height:".data s).getD "24".data
    let elements := jsElements s
    if elements = [] then none
    else
      some ("<svg width=\"".data ++ width ++ "\" height=\"".data ++ height
        ++ "\" viewBox=\"".data ++ viewbox
        ++ "\" fill=\"none\" xmlns=\"http://www.w3.org/2000/svg\">".data
        ++ elements.flatten ++ "</svg>".data)

/-! ### `extract_svg_from_tsx`: source component extraction -/

/-- `re.sub` / `str.replace`: left-to-right non-overlapping rewriting.  The
matcher returns the number of characters consumed (always positive for the
patterns of the script) and the replacement text. -/
def gsubAux (s : Str) (m : Nat → Option (Nat × Str)) : Nat → Nat → Str
  | 0, _ => []
  | fuel + 1, i =>
    match m i with
    | some (len, rep) => rep ++ gsubAux s m fuel (i + len)
    | none =>
      match charAt s i with
      | some c => c :: gsubAux s m fuel (i + 1)
      | none => []

/-- Apply a global substitution over the whole of `s`. -/
def gsubAll (s : Str) (m : Nat → Option (Nat × Str)) : Str :=
  gsubAux s m (s.length + 1) 0

/-- Matcher for a literal pattern with a fixed replacement (`str.replace`). -/
def litSub (pat rep : Str) (s : Str) (i : Nat) : Option (Nat × Str) :=
  if litAt pat s i then some (pat.length, rep) else none

/-- `str.replace(pat, rep)` as a function on `Str`. -/
def pyReplace (s pat rep : Str) : Str :=
  gsubAll s (litSub pat rep s)

/-- `str.replace(pat, rep, 1)`: replace only the first occurrence. -/
def pyReplaceFirst : Str → Str → Str → Str
  | [], _, _ => []
  | c :: rest, pat, rep =>
    if litAt pat (c :: rest) 0 then rep ++ (c :: rest).drop pat.length
    else c :: pyReplaceFirst rest pat rep

/-- Matcher for `\s*\{\.\.\.props\}` (the whitespace run is forced to be
maximal: a shorter run would have to continue with a brace where a
whitespace character stands). -/
def propsSpreadAt (s : Str) (i : Nat) : Option (Nat × Str) :=
  let w := wsLen s i
  if litAt "{...props}".data s (i + w) then some (w + 10, []) else none

/-- ASCII part of regex `\w`. -/
def isWordChar (c : Char) : Bool :=
  c.isAlpha || c.isDigit || c = '_'

/-- Matcher for `\w+=\{[^}]+\}` (JSX expression attributes), replaced by
nothing.  A match needs a maximal word run at `i` followed by `={`, then the
run to the first `}`, which must be nonempty. -/
def jsxExprAttrAt (s : Str) (i : Nat) : Option (Nat × Str) :=
  let w := runLen isWordChar s i
  if w = 0 then none
  else if litAt "=\x7b".data s (i + w) then
    let v := runLen (fun c => !(c = '}')) s (i + w + 2)
    if v = 0 then none
    else
      match charAt s (i + w + 2 + v) with
      | some _ => some (w + 2 + v + 1, [])
      | none => none
  else none

/-- Matcher for `fill="var\([^)]+\)"`, replaced by `fill="#333"`. -/
def fillVarAt (s : Str) (i : Nat) : Option (Nat × Str) :=
  if litAt "fill=\"var(".data s i then
    let v := runLen (fun c => !(c = ')')) s (i + 10)
    if v = 0 then none
    else if litAt ")\"".data s (i + 10 + v) then
      some (10 + v + 2, "fill=\"#333\"".data)
    else none
  else none

/-- The first `(<svg[^>]*>)(.*?)(</svg>)` match (DOTALL): opening tag,
inner content.  The lazy inner run stops at the first `</svg>`. -/
def findSvgTagMatch (s : Str) : Option (Str × Str) :=
  searchAll s (fun i =>
    if litAt "<svg".data s i then
      let v := runLen (fun c => !(c = '>')) s (i + 4)
      match charAt s (i + 4 + v) with
      | some _ =>
        let openEnd := i + 4 + v + 1
        match
          searchAll s (fun p =>
            if p < openEnd then none
            else if litAt "</svg>".data s p then some p else none) with
        | some p => some (pySlice s i openEnd, pySlice s openEnd p)
        | none => none
      | none => none
    else none)

/-- Matcher for `width="(\d+)"` (double quotes only, no whitespace). -/
def attrNumAt (key : Str) (s : Str) (i : Nat) : Option Str :=
  if litAt (key ++ "=\"".data) s i then
    let j := i + key.length + 2
    let d := runLen Char.isDigit s j
    if d = 0 then none
    else if litAt "\"".data s (j + d) then some ((s.drop j).take d) else none
  else none

/-- `extract_svg_from_tsx(tsx_content)`. -/
def extract_svg_from_tsx (s : Str) : Option Str :=
  match findSvgTagMatch s with
  | none => none
  | some (svgOpen0, svgInner0) =>
    let svgOpen1 := gsubAll svgOpen0 (propsSpreadAt svgOpen0)
    let svgOpen2 := pyReplace svgOpen1 "className=".data "class=".data
    let svgOpen3 := gsubAll svgOpen2 (jsxExprAttrAt svgOpen2)
    let svgInner1 := pyReplace svgInner0 "className=".data "class=".data
    let svgInner2 := gsubAll svgInner1 (jsxExprAttrAt svgInner1)
    let svgInner3 :=
      pyReplace (pyReplace svgInner2 "<>".data []) "</>".data []
    let svgOpen4 :=
      if strCont "viewBox".data svgOpen3 then svgOpen3
      else
        match searchAll svgOpen3 (attrNumAt "width".data svgOpen3),
            searchAll svgOpen3 (attrNumAt "height".data svgOpen3) with
        | some w, some h =>
          pyReplaceFirst svgOpen3 ">".data
            (" viewBox=\"0 0 ".data ++ w ++ " ".data ++ h ++ "\">".data)
        | _, _ => svgOpen3
    let fullSvg := svgOpen4 ++ svgInner3 ++ "</svg>".data
    let fullSvg1 := gsubAll fullSvg (fillVarAt fullSvg)
    let fullSvg2 := pyReplace fullSvg1 "fill=\"\"".data "fill=\"#333\"".data
    some fullSvg2

/-! ### Name resolution -/

/-- `re.search(r'export\s*\{\s*(\w+)', js)`. -/
def get_exported_name (s : Str) : Option Str :=
  searchAll s (fun i =>
    if litAt "export".data s i then
      let j := i + 6 + wsLen s (i + 6)
      match charAt s j with
      | some c =>
        if c = '{' then
          let k := j + 1 + wsLen s (j + 1)
          let w := runLen isWordChar s k
          if w = 0 then none else some ((s.drop k).take w)
        else none
      | none => none
    else none)

/-- `Path(filename).stem`: the file name without its final suffix (a final
suffix needs a dot after the first character). -/
def pathStem (name : Str) : Str :=
  let idx := (name.reverse.takeWhile (fun c => !(c = '.'))).length
  if idx = name.length || name.length - idx ≤ 1 then name
  else name.take (name.length - idx - 1)

/-- Match `export\s+(?:default\s+)?function\s+(\w+)` at `i`; the optional
`default\s+` group is tried first and dropped on failure. -/
def exportFunAt (s : Str) (i : Nat) : Option Str :=
  if litAt "export".data s i then
    let w1 := wsLen s (i + 6)
    if w1 = 0 then none
    else
      let j := i + 6 + w1
      let funAt := fun (k : Nat) =>
        if litAt "function".data s k then
          let w2 := wsLen s (k + 8)
          if w2 = 0 then none
          else
            let n := runLen isWordChar s (k + 8 + w2)
            if n = 0 then none else some ((s.drop (k + 8 + w2)).take n)
        else none
      match
        (if litAt "default".data s j then
          let wd := wsLen s (j + 7)
          if wd = 0 then none else funAt (j + 7 + wd)
        else none) with
      | some r => some r
      | none => funAt j
  else none

/-- Match `export\s+const\s+(\w+)` at `i`. -/
def exportConstAt (s : Str) (i : Nat) : Option Str :=
  if litAt "export".data s i then
    let w1 := wsLen s (i + 6)
    if w1 = 0 then none
    else
      let j := i + 6 + w1
      if litAt "const".data s j then
        let w2 := wsLen s (j + 5)
        if w2 = 0 then none
        else
          let n := runLen isWordChar s (j + 5 + w2)
          if n = 0 then none else some ((s.drop (j + 5 + w2)).take n)
      else none
  else none

/-- `get_exported_name_tsx(tsx_content, filename)`. -/
def get_exported_name_tsx (s : Str) (filename : Str) : Str :=
  match searchAll s (exportFunAt s) with
  | some n => n
  | none =>
    match searchAll s (exportConstAt s) with
    | some n => n
    | none => pathStem filename

/-! ### String ordering (Python compares strings by code point) -/

/-- Python's `<` on strings: lexicographic by code point. -/
def lexLt : Str → Str → Bool
  | [], [] => false
  | [], _ :: _ => true
  | _ :: _, [] => false
  | a :: as, b :: bs =>
    if a < b then true else if b < a then false else lexLt as bs

/-- `x < y` for Python strings. -/
def strLtb (x y : String) : Bool := lexLt x.data y.data

/-- `x <= y` for Python strings. -/
def strLeb (x y : String) : Bool := strLtb x y || decide (x = y)

/-- Insert into a `strLeb`-sorted list (before any equal element). -/
def insSorted (x : String) : List String → List String
  | [] => [x]
  | y :: ys => if strLeb x y then x :: y :: ys else y :: insSorted x ys

/-- Python's `sorted` on strings (any comparison sort agrees on a total
order, equal elements being identical strings). -/
def pySortStr : List String → List String
  | [] => []
  | x :: xs => insSorted x (pySortStr xs)

/-! ### `normalize_paths` and `compute_fingerprint` -/

/-- One match of `d="([^"]+)"` at `i` (double quotes only). -/
def dAttrMatchAt (s : Str) (i : Nat) : Option (Str × Nat) :=
  if litAt "d=\"".data s i then
    let v := runLen (fun c => !(c = '"')) s (i + 3)
    if v = 0 then none
    else
      match charAt s (i + 3 + v) with
      | some _ => some ((s.drop (i + 3)).take v, i + 3 + v + 1)
      | none => none
  else none

/-- `re.findall(r'd="([^"]+)"', svg_str)`. -/
def extractDValues (s : Str) : List Str :=
  findIterAll s (dAttrMatchAt s)

/-- `re.match(r'^clip\d', d)` succeeds (clipPath ID artifact). -/
def isClipArtifact (d : Str) : Bool :=
  litAt "clip".data d 0 &&
    (match charAt d 4 with
     | some c => c.isDigit
     | none => false)

/-- Python's `str.split()` (split on whitespace runs, no empty parts). -/
def pySplit (s : Str) : List Str :=
  let p := s.foldr
    (fun c (acc : List Str × Str) =>
      if pyWs c then (if acc.2.isEmpty then acc else (acc.2 :: acc.1, []))
      else (acc.1, c :: acc.2))
    ([], [])
  if p.2.isEmpty then p.1 else p.2 :: p.1

/-- `" ".join(d.split())`: collapse whitespace runs to single spaces. -/
def normalizeD (d : Str) : String :=
  String.mk (List.intercalate [' '] (pySplit d))

/-- The path data of `normalize_paths` before the final sort: extract `d`
values, drop clip artifacts and values of length `≤ 5`, normalize
whitespace. -/
def keptNormalized (svg : String) : List String :=
  (((extractDValues svg.data).filter (fun d => !(isClipArtifact d))).filter
      (fun d => 5 < d.length)).map normalizeD

/-- `normalize_paths(svg_str)`: extract `d` values, drop clip artifacts and
values of length `≤ 5`, normalize whitespace, sort. -/
def normalize_paths (svg : String) : List String :=
  pySortStr (keptNormalized svg)

/-- `compute_fingerprint(paths_tuple)`: `"|".join(paths_tuple)`. -/
def compute_fingerprint (paths : List String) : String :=
  String.mk (List.intercalate "|".data (paths.map String.data))

/-! ### `difflib.SequenceMatcher(None, a, b).ratio()`

Translated from CPython's `difflib`: `__chain_b` (with `isjunk = None` and
`autojunk = True`, so the junk set is empty and only "popular" elements are
dropped from `b2j` when `len(b) ≥ 200`), `find_longest_match` (the two junk
extension loops are vacuous since the junk set is empty) and the recursive
block collection of `get_matching_blocks`, of which only the total matched
size is needed for `ratio`. -/

/-- First value for a key in an association list. -/
def alookup [DecidableEq κ] : List (κ × α) → κ → Option α
  | [], _ => none
  | (k, v) :: rest, k' => if k' = k then some v else alookup rest k'

/-- `m.setdefault(k, []).append(v)` on an insertion-ordered dict of lists. -/
def bucketAppend [DecidableEq κ] : List (κ × List α) → κ → α → List (κ × List α)
  | [], k, v => [(k, [v])]
  | (k', vs) :: rest, k, v =>
    if k = k' then (k', vs ++ [v]) :: rest
    else (k', vs) :: bucketAppend rest k v

/-- `__chain_b`: positions of each element of `b`, minus popular elements
(count `> len(b)//100 + 1`) when `len(b) ≥ 200`. -/
def chainB (b : Str) : List (Char × List Nat) :=
  let b2j := b.enum.foldl (fun m jc => bucketAppend m jc.2 jc.1) []
  let n := b.length
  if 200 ≤ n then
    let ntest := n / 100 + 1
    b2j.filter (fun kv => !(ntest < kv.2.length))
  else b2j

/-- `b2j.get(c, [])`. -/
def posOf (b2j : List (Char × List Nat)) (c : Char) : List Nat :=
  (alookup b2j c).getD []

/-- `a[i] == b[j]` (indices in range in every use). -/
def chEq (a b : Str) (i j : Nat) : Bool :=
  match charAt a i, charAt b j with
  | some x, some y => x = y
  | _, _ => false

/-- The dynamic-programming core of `find_longest_match`: one `i` step over
the ascending positions of `a[i]` in `b` (the `continue`/`break` pair keeps
`blo ≤ j < bhi`), threading `newj2len` and the best triple `(i', j', size)`
under strict improvement.  -/
def flmStep (j2len : List (Nat × Nat)) (i : Nat) (js : List Nat)
    (st : (Nat × Nat × Nat) × List (Nat × Nat)) : (Nat × Nat × Nat) × List (Nat × Nat) :=
  js.foldl
    (fun st j =>
      let k := (if j = 0 then 0 else (alookup j2len (j - 1)).getD 0) + 1
      let best := st.1
      let best' := if best.2.2 < k then (i + 1 - k, j + 1 - k, k) else best
      (best', st.2 ++ [(j, k)]))
    st

/-- The `for i in range(alo, ahi)` loop of `find_longest_match`. -/
def flmLoop (a b : Str) (b2j : List (Char × List Nat)) (blo bhi : Nat) :
    List Nat → (Nat × Nat × Nat) → List (Nat × Nat) → Nat × Nat × Nat
  | [], best, _ => best
  | i :: is, best, j2len =>
    let js := (((posOf b2j ((charAt a i).getD ' ')).filter (fun j => blo ≤ j)).takeWhile
      (fun j => j < bhi))
    let st := flmStep j2len i js (best, [])
    flmLoop a b b2j blo bhi is st.1 st.2

/-- Count of the left extension `while besti > alo and bestj > blo and
a[besti-1] == b[bestj-1]`. -/
def extLeftCount (a b : Str) (alo blo : Nat) : Nat → Nat → Nat → Nat
  | 0, _, _ => 0
  | fuel + 1, bi, bj =>
    if alo < bi && blo < bj && chEq a b (bi - 1) (bj - 1) then
      1 + extLeftCount a b alo blo fuel (bi - 1) (bj - 1)
    else 0

/-- Count of the right extension. -/
def extRightCount (a b : Str) (ahi bhi : Nat) : Nat → Nat → Nat → Nat
  | 0, _, _ => 0
  | fuel + 1, pi, pj =>
    if pi < ahi && pj < bhi && chEq a b pi pj then
      1 + extRightCount a b ahi bhi fuel (pi + 1) (pj + 1)
    else 0

/-- `find_longest_match(alo, ahi, blo, bhi)` as `(besti, bestj, bestsize)`.
The junk-aware extension loops are omitted: with `isjunk = None` the junk
set is empty, so the first two loops never test junk and the last two never
run. -/
def findLongestMatch (a b : Str) (b2j : List (Char × List Nat))
    (alo ahi blo bhi : Nat) : Nat × Nat × Nat :=
  let best := flmLoop a b b2j blo bhi (List.range' alo (ahi - alo)) (alo, blo, 0) []
  let lc := extLeftCount a b alo blo best.1 best.1 best.2.1
  let besti := best.1 - lc
  let bestj := best.2.1 - lc
  let size := best.2.2 + lc
  let rc := extRightCount a b ahi bhi (ahi - (besti + size)) (besti + size) (bestj + size)
  (besti, bestj, size + rc)

/-- Total size of all matching blocks found by `get_matching_blocks`'s
recursive subdivision (the adjacent-block merge and the final sentinel do
not change the total, which is all `ratio` uses). -/
def matchTotalAux (a b : Str) (b2j : List (Char × List Nat)) :
    Nat → Nat × Nat × Nat × Nat → Nat
  | 0, _ => 0
  | fuel + 1, (alo, ahi, blo, bhi) =>
    let m := findLongestMatch a b b2j alo ahi blo bhi
    let i := m.1
    let j := m.2.1
    let k := m.2.2
    if k = 0 then 0
    else
      k + (if alo < i && blo < j then matchTotalAux a b b2j fuel (alo, i, blo, j) else 0)
        + (if i + k < ahi && j + k < bhi then
            matchTotalAux a b b2j fuel (i + k, ahi, j + k, bhi)
          else 0)

/-- `sum(size for block in get_matching_blocks())` for
`SequenceMatcher(None, x, y)`. -/
def seqMatchTotal (x y : String) : Nat :=
  matchTotalAux x.data y.data (chainB y.data) (x.data.length + y.data.length + 1)
    (0, x.data.length, 0, y.data.length)

/-- `round(2 * M / T, 3)` in exact integer thousandths (round half to even;
see the header note on float fidelity). -/
def round3Thousandths (M T : Nat) : Nat :=
  let n := 2000 * M
  let q := n / T
  let r := n % T
  if 2 * r < T then q
  else if T < 2 * r then q + 1
  else if q % 2 = 0 then q else q + 1

/-! ### `find_redundant_groups` -/

/-- The `fingerprints` dict: icon name → nonempty normalized path tuple
(icons with no extractable paths are skipped; catalog keys are unique, so
`filterMap` builds the same insertion-ordered dict as the loop). -/
def fingerprintsOf (icons : List (String × String)) : List (String × List String) :=
  icons.filterMap (fun nd =>
    let paths := normalize_paths nd.2
    if paths = [] then none else some (nd.1, paths))

/-- The `fp_to_names` dict: fingerprint string → names, insertion ordered. -/
def fpToNames (fps : List (String × List String)) : List (String × List String) :=
  fps.foldl (fun m nf => bucketAppend m (compute_fingerprint nf.2) nf.1) []

/-- `exact_groups`: buckets with at least two members, each sorted. -/
def exactGroupsOf (icons : List (String × String)) : List (List String) :=
  (((fpToNames (fingerprintsOf icons)).map Prod.snd).filter
      (fun g => 1 < g.length)).map pySortStr

/-- `fp_strs[name]` (every name passed in is a key of `fingerprints`). -/
def fpStrOf (fps : List (String × List String)) (n : String) : String :=
  ((alookup fps n).map compute_fingerprint).getD ""

/-- Ordered pairs `(names_list[i], names_list[j])` with `i < j`. -/
def pairsOf : List α → List (α × α)
  | [] => []
  | x :: xs => xs.map (fun y => (x, y)) ++ pairsOf xs

/-- The skip test for a pair already reported as exact duplicates: both
names in some exact group, and one group holds both. -/
def sameExactGroup (groups : List (List String)) (a b : String) : Bool :=
  let ae := groups.flatten
  (decide (a ∈ ae) && decide (b ∈ ae)) && groups.any (fun g => decide (a ∈ g) && decide (b ∈ g))

/-- The body of the near-duplicate pair loop for one candidate pair.
Guards appear in source order (the empty-`fp_a` test is the outer loop's
`continue`); the float comparisons `min/max < 0.4` and `similarity >= 0.80`
are the exact tests `5*min < 2*max` and `10*M ≥ 4*(la+lb)`. -/
def nearPairDecision (fps : List (String × List String)) (groups : List (List String))
    (ab : String × String) : Option (String × String × Nat) :=
  let fpA := fpStrOf fps ab.1
  let fpB := fpStrOf fps ab.2
  if fpA = "" then none
  else if sameExactGroup groups ab.1 ab.2 then none
  else if fpB = "" then none
  else
    let la := fpA.data.length
    let lb := fpB.data.length
    if 0 < la && 0 < lb && 5 * min la lb < 2 * max la lb then none
    else
      let M := seqMatchTotal fpA fpB
      if 4 * (la + lb) ≤ 10 * M then
        some (ab.1, ab.2, round3Thousandths M (la + lb))
      else none

/-- The near-duplicate pair loop, before the final sort. -/
def nearPairsUnsorted (icons : List (String × String)) : List (String × String × Nat) :=
  let fps := fingerprintsOf icons
  let groups := exactGroupsOf icons
  let names := pySortStr (fps.map Prod.fst)
  (pairsOf names).filterMap (nearPairDecision fps groups)

/-- Stable descending insertion by reported score (`sort(key=…, reverse=True)`
is stable; the score third component is what Python sorts by). -/
def insDescBySim (x : String × String × Nat) :
    List (String × String × Nat) → List (String × String × Nat)
  | [] => [x]
  | y :: ys => if y.2.2 ≤ x.2.2 then x :: y :: ys else y :: insDescBySim x ys

/-- Stable sort of the near pairs by descending score. -/
def sortDescBySim : List (String × String × Nat) → List (String × String × Nat)
  | [] => []
  | x :: xs => insDescBySim x (sortDescBySim xs)

/-- `find_redundant_groups(icons)`: exact groups and near pairs (scores in
thousandths). -/
def find_redundant_groups (icons : List (String × String)) :
    List (List String) × List (String × String × Nat) :=
  (exactGroupsOf icons, sortDescBySim (nearPairsUnsorted icons))

/-- The fingerprint of a catalog icon, looked up by name (an absent name or
an icon with no extractable paths fingerprints to the empty string). -/
def iconFingerprint (icons : List (String × String)) (n : String) : String :=
  compute_fingerprint (normalize_paths ((alookup icons n).getD ""))

/-! ### Concrete inputs used by example-level theorems -/

/-- A catalog with one exact-duplicate pair (`A`/`B`, equal paths up to a
trailing space) and one near-duplicate pair (`C`/`D`). -/
def sampleCatalog : List (String × String) :=
  [("B", "<svg><path d=\"zzzzzz\"/></svg>"),
   ("A", "<svg><path d=\"zzzzzz \"/></svg>"),
   ("C", "<svg><path d=\"aaaaaab\"/></svg>"),
   ("D", "<svg><path d=\"aaaaaac\"/></svg>")]

/-- Two icons with no extractable paths at all. -/
def emptySigCatalog : List (String × String) :=
  [("A", "<svg></svg>"), ("B", "<svg></svg>")]

/-- Two icons whose only path is six spaces: kept by the length filter
(6 > 5) but whitespace-normalized to the empty string, so the signature is
nonempty while the fingerprint is empty. -/
def wsPathCatalog : List (String × String) :=
  [("A", "<svg><path d=\"      \"/></svg>"), ("B", "<svg><path d=\"      \"/></svg>")]

/-- The compiled-component input of the spec's worked example. -/
def exampleJsInput : Str :=
  "width: \"24\", height: \"24\", viewBox: \"0 0 24 24\", d: \"M1 1L2 2\"".data

/-- The output string the spec's worked example asserts, verbatim. -/
def exampleClaimedOutput : Str :=
  "<svg width=\"24\" height=\"24\" viewBox=\"0 0 24 24\" fill=\"none\" xmlns=\"...\">adbde1 → <path d=\"M1 1L2 2\" fill=\"#333\"/></svg>".data

/-- What `extract_svg_from_js` produces on that input. -/
def exampleActualOutput : Str :=
  "<svg width=\"24\" height=\"24\" viewBox=\"0 0 24 24\" fill=\"none\" xmlns=\"http://www.w3.org/2000/svg\"><path d=\"M1 1L2 2\" fill=\"#333\"/></svg>".data

/-- A source component whose path fill is the sentinel string `undefined`. -/
def sentinelTsxInput : Str :=
  "<svg viewBox=\"0 0 24 24\"><path d=\"M1 1L2 2\" fill=\"undefined\"/></svg>".data

/-- A source component with a `var()` fill and an empty fill. -/
def varTsxInput : Str :=
  "<svg viewBox=\"0 0 24 24\"><path d=\"M1 1L2 2\" fill=\"var(--c)\"/><path d=\"M3 3\" fill=\"\"/></svg>".data

/-- The extraction of `varTsxInput`: both fills become the default. -/
def varTsxOutput : Str :=
  "<svg viewBox=\"0 0 24 24\"><path d=\"M1 1L2 2\" fill=\"#333\"/><path d=\"M3 3\" fill=\"#333\"/></svg>".data

/-- Markup whose path data contains the fingerprint separator `|`. -/
def sepSvg1 : String := "<svg><path d=\"aaaaaaa|bbbbbbb\"/><path d=\"ccccccc\"/></svg>"

/-- Different path data joining to the same fingerprint as `sepSvg1`. -/
def sepSvg2 : String := "<svg><path d=\"aaaaaaa\"/><path d=\"bbbbbbb|ccccccc\"/></svg>"

/-- Two shared-package copies exporting the same icon name with different
markup, in priority order. -/
def samplePkgEntries : List (String × String) :=
  [("dirA", "export \x7b Ico \x7d; viewBox: \"0 0 4 4\", d: \"MP1 P1\""),
   ("dirB", "export \x7b Ico \x7d; viewBox: \"0 0 8 8\", d: \"MP2 P2\"")]

/-- A custom component with the same exported name `Ico`. -/
def sampleCustomEntries : List (String × String × String) :=
  [("appx", "Ico.tsx", "export const Ico = 1; <svg viewBox=\"0 0 9 9\"><path d=\"MP3 P3\"/></svg>")]


/-! ### Icon catalog building (`load_package_icons`, custom merge)

The directory walking is an external collaborator (spec §6): the model
receives, in visiting order, the `(entry.name, js_content)` pairs of the
shared-package pass (repositories in `REPOS` order, entries of each
`icons/` directory in sorted order, first `.js` file of each entry) and the
`(app_name, filename, tsx_content)` triples of the custom pass. -/

/-- One catalog value: the dict `{"svg": …, "source": …, "used_by": […]}`. -/
structure IconData where
  svg : String
  source : String
  used_by : List String
deriving Repr, DecidableEq

/-- One loop iteration of `load_package_icons()`: resolve the name, skip it
if already loaded, insert the icon if extraction succeeds. -/
def pkgStep (icons : List (String × IconData)) (ec : String × String) :
    List (String × IconData) :=
  if (alookup icons (String.mk ((get_exported_name ec.2.data).getD ec.1.data))).isSome then
    icons
  else
    match extract_svg_from_js ec.2.data with
    | some svg =>
      icons ++ [(String.mk ((get_exported_name ec.2.data).getD ec.1.data),
        ⟨String.mk svg, "anatomy-ui-core", []⟩)]
    | none => icons

/-- `load_package_icons()` over the visited `(entry_name, content)` pairs. -/
def load_package_icons (entries : List (String × String)) : List (String × IconData) :=
  entries.foldl pkgStep []

/-- `load_custom_svg_icons()` over `(app_name, filename, content)` triples. -/
def load_custom_svg_icons (entries : List (String × String × String)) :
    List (String × IconData) :=
  entries.foldl
    (fun icons e =>
      let name := String.mk (get_exported_name_tsx e.2.2.data e.2.1.data)
      if (alookup icons name).isSome then icons
      else
        match extract_svg_from_tsx e.2.2.data with
        | some svg =>
          icons ++ [(name,
            ⟨String.mk svg, String.mk ("custom (".data ++ e.1.data ++ ")".data), []⟩)]
        | none => icons)
    []

/-- Step 2 of `main`: add custom icons whose names are not already in the
package catalog. -/
def mergeCustomIcons (icons custom : List (String × IconData)) : List (String × IconData) :=
  custom.foldl (fun ic nd => if (alookup ic nd.1).isSome then ic else ic ++ [nd]) icons

/-- Steps 1–2 of `main`: the de-duplicated catalog. -/
def buildCatalog (pkg : List (String × String)) (custom : List (String × String × String)) :
    List (String × IconData) :=
  mergeCustomIcons (load_package_icons pkg) (load_custom_svg_icons custom)

/-! ### Usage scanning (`scan_app_for_icons` and step 3 of `main`) -/

/-- `fname.endswith(suffix)`. -/
def endsWithL (suf s : Str) : Bool :=
  decide (s.drop (s.length - suf.length) = suf) && decide (suf.length ≤ s.length)

/-- `fname.endswith((".ts", ".tsx", ".js", ".jsx"))`. -/
def scanExtOk (fname : Str) : Bool :=
  endsWithL ".ts".data fname || endsWithL ".tsx".data fname
    || endsWithL ".js".data fname || endsWithL ".jsx".data fname

/-- `scan_app_for_icons(src_dir, known_icon_names)`: the set of known names
occurring as a substring of some scanned file of matching extension (the
model lists the members in `names` order; only membership is used). -/
def scan_app_for_icons (files : List (String × String)) (names : List String) :
    List String :=
  names.filter (fun n => files.any (fun fc => scanExtOk fc.1.data && strCont n.data fc.2.data))

/-- The condition under which one application's files mark icon `n` as used:
the name occurs as a substring of some file of matching extension. -/
def appUses (n : String) (files : List (String × String)) : Bool :=
  files.any (fun fc => scanExtOk fc.1.data && strCont n.data fc.2.data)

/-- One application's pass of step 3 of `main`: append the app name to the
`used_by` of every icon it references. -/
def applyAppUsage (icons : List (String × IconData)) (app : String)
    (files : List (String × String)) : List (String × IconData) :=
  let used := scan_app_for_icons files (icons.map Prod.fst)
  icons.map (fun nd =>
    if decide (nd.1 ∈ used) then
      (nd.1, ⟨nd.2.svg, nd.2.source, nd.2.used_by ++ [app]⟩)
    else nd)

/-- Step 3 of `main` over `APP_SOURCE_DIRS`: an application is
`(app_name, none)` when its source tree does not exist (skipped) and
`(app_name, some files)` otherwise. -/
def scanAllApps (icons : List (String × IconData))
    (apps : List (String × Option (List (String × String)))) : List (String × IconData) :=
  apps.foldl
    (fun ic ao =>
      match ao.2 with
      | none => ic
      | some files => applyAppUsage ic ao.1 files)
    icons

/-- The list of application names, in application order, that end up appended
to icon `n`'s `used_by` during step 3 of `main` (an application with a missing
source tree contributes nothing). -/
def usageOf (n : String) : List (String × Option (List (String × String))) → List String
  | [] => []
  | (_, none) :: apps => usageOf n apps
  | (app, some files) :: apps =>
      if appUses n files then app :: usageOf n apps else usageOf n apps

/-- Two applications, one with a missing source tree. -/
def sampleApps : List (String × Option (List (String × String))) :=
  [("empire", some [("a.ts", "uses Ico here"), ("b.css", "Ico")]), ("hil-ui", none)]

/-- A one-icon catalog before usage scanning. -/
def sampleIcons0 : List (String × IconData) :=
  [("Ico", ⟨"s", "anatomy-ui-core", []⟩)]

/-! ## Lemma toolkit

### The code-point order on strings -/

theorem lexLt_irrefl : ∀ l : Str, lexLt l l = false
  | [] => rfl
  | a :: as => by simp [lexLt, lexLt_irrefl as]

theorem lexLt_asymm : ∀ {l1 l2 : Str}, lexLt l1 l2 = true → lexLt l2 l1 = false
  | [], [], h => by simp [lexLt] at h
  | [], _ :: _, _ => by simp [lexLt]
  | _ :: _, [], h => by simp [lexLt] at h
  | a :: as, b :: bs, h => by
    simp only [lexLt] at h ⊢
    by_cases hab : a < b
    · have hba : ¬ b < a := lt_asymm hab
      simp [hab, hba]
    · by_cases hba : b < a
      · simp [hab, hba] at h
      · simp only [hab, hba, if_false] at h ⊢
        exact lexLt_asymm h

theorem lexLt_eq_of_not : ∀ {l1 l2 : Str}, lexLt l1 l2 = false → lexLt l2 l1 = false → l1 = l2
  | [], [], _, _ => rfl
  | [], _ :: _, h1, _ => by simp [lexLt] at h1
  | _ :: _, [], _, h2 => by simp [lexLt] at h2
  | a :: as, b :: bs, h1, h2 => by
    simp only [lexLt] at h1 h2
    by_cases hab : a < b
    · simp [hab] at h1
    · by_cases hba : b < a
      · simp [hab, hba] at h2
      · have hab' : a = b := le_antisymm (not_lt.mp hba) (not_lt.mp hab)
        simp only [hab, hba, if_false] at h1 h2
        have := lexLt_eq_of_not h1 h2
        rw [hab', this]

theorem lexLt_trans : ∀ {l1 l2 l3 : Str},
    lexLt l1 l2 = true → lexLt l2 l3 = true → lexLt l1 l3 = true
  | [], [], _, h1, _ => by simp [lexLt] at h1
  | [], _ :: _, [], _, h2 => by simp [lexLt] at h2
  | [], _ :: _, _ :: _, _, _ => by simp [lexLt]
  | _ :: _, [], _, h1, _ => by simp [lexLt] at h1
  | _ :: _, _ :: _, [], _, h2 => by simp [lexLt] at h2
  | a :: as, b :: bs, c :: cs, h1, h2 => by
    simp only [lexLt] at h1 h2 ⊢
    by_cases hab : a < b
    · by_cases hbc : b < c
      · simp [lt_trans hab hbc]
      · by_cases hcb : c < b
        · simp [hab, hbc, hcb] at h2
        · have : b = c := le_antisymm (not_lt.mp hcb) (not_lt.mp hbc)
          subst this
          simp [hab]
    · by_cases hba : b < a
      · simp [hab, hba] at h1
      · have hab' : a = b := le_antisymm (not_lt.mp hba) (not_lt.mp hab)
        subst hab'
        simp only [hab, if_false] at h1
        by_cases hac : a < c
        · simp [hac]
        · by_cases hca : c < a
          · simp [hac, hca] at h2
          · simp only [hac, hca, if_false] at h2 ⊢
            exact lexLt_trans h1 h2

theorem string_eq_of_data {x y : String} (h : x.data = y.data) : x = y :=
  congrArg String.mk h

theorem strLeb_refl (x : String) : strLeb x x = true := by
  simp [strLeb]

theorem strLeb_iff {x y : String} : strLeb x y = true ↔ (strLtb x y = true ∨ x = y) := by
  simp [strLeb]

theorem strLeb_total (x y : String) : strLeb x y = true ∨ strLeb y x = true := by
  by_cases h1 : lexLt x.data y.data = true
  · exact Or.inl (strLeb_iff.mpr (Or.inl h1))
  · by_cases h2 : lexLt y.data x.data = true
    · exact Or.inr (strLeb_iff.mpr (Or.inl h2))
    · have hxy : x = y :=
        string_eq_of_data
          (lexLt_eq_of_not (Bool.eq_false_iff.mpr h1) (Bool.eq_false_iff.mpr h2))
      exact Or.inl (strLeb_iff.mpr (Or.inr hxy))

theorem strLeb_antisymm {x y : String} (h1 : strLeb x y = true) (h2 : strLeb y x = true) :
    x = y := by
  rcases strLeb_iff.mp h1 with hlt | heq
  · rcases strLeb_iff.mp h2 with hlt' | heq'
    · have := @lexLt_asymm x.data y.data hlt
      exact absurd hlt' (by simp [strLtb, this])
    · exact heq'.symm
  · exact heq

theorem strLeb_trans {x y z : String} (h1 : strLeb x y = true) (h2 : strLeb y z = true) :
    strLeb x z = true := by
  rcases strLeb_iff.mp h1 with hlt | heq
  · rcases strLeb_iff.mp h2 with hlt' | heq'
    · exact strLeb_iff.mpr (Or.inl (lexLt_trans hlt hlt'))
    · exact heq' ▸ h1
  · exact heq ▸ h2

theorem strLeb_of_not {x y : String} (h : ¬ strLeb x y = true) : strLeb y x = true :=
  (strLeb_total x y).resolve_left h

/-! ### Sorting lemmas -/

theorem insSorted_perm (x : String) : ∀ l : List String, (insSorted x l).Perm (x :: l)
  | [] => List.Perm.refl _
  | y :: ys => by
    simp only [insSorted]
    by_cases h : strLeb x y = true
    · simp [h]
    · simp only [h, if_false]
      exact ((insSorted_perm x ys).cons y).trans (List.Perm.swap x y ys)

theorem pySortStr_perm : ∀ l : List String, (pySortStr l).Perm l
  | [] => List.Perm.refl _
  | x :: xs => (insSorted_perm x (pySortStr xs)).trans ((pySortStr_perm xs).cons x)

theorem insSorted_pairwise (x : String) :
    ∀ {l : List String}, l.Pairwise (fun a b => strLeb a b = true) →
      (insSorted x l).Pairwise (fun a b => strLeb a b = true)
  | [], _ => by simp [insSorted]
  | y :: ys, h => by
    simp only [insSorted]
    rcases List.pairwise_cons.mp h with ⟨hy, hys⟩
    by_cases hxy : strLeb x y = true
    · simp only [hxy, if_true]
      refine List.pairwise_cons.mpr ⟨?_, h⟩
      intro b hb
      rcases List.mem_cons.mp hb with hb | hb
      · exact hb ▸ hxy
      · exact strLeb_trans hxy (hy b hb)
    · simp only [hxy, if_false]
      refine List.pairwise_cons.mpr ⟨?_, insSorted_pairwise x hys⟩
      intro b hb
      have hmem : b ∈ x :: ys := (insSorted_perm x ys).mem_iff.mp hb
      rcases List.mem_cons.mp hmem with hmem | hmem
      · exact hmem ▸ strLeb_of_not hxy
      · exact hy b hmem

theorem pySortStr_pairwise : ∀ l : List String,
    (pySortStr l).Pairwise (fun a b => strLeb a b = true)
  | [] => List.Pairwise.nil
  | x :: xs => insSorted_pairwise x (pySortStr_pairwise xs)

theorem sorted_eq_of_perm {l1 l2 : List String} (hperm : l1.Perm l2)
    (h1 : l1.Pairwise (fun a b => strLeb a b = true))
    (h2 : l2.Pairwise (fun a b => strLeb a b = true)) : l1 = l2 := by
  have inst : IsAntisymm String (fun a b => strLeb a b = true) :=
    ⟨fun _ _ ha hb => strLeb_antisymm ha hb⟩
  exact @List.eq_of_perm_of_sorted _ _ inst _ _ hperm h1 h2

theorem pySortStr_canon {l1 l2 : List String} (h : l1.Perm l2) :
    pySortStr l1 = pySortStr l2 :=
  sorted_eq_of_perm ((pySortStr_perm l1).trans (h.trans (pySortStr_perm l2).symm))
    (pySortStr_pairwise l1) (pySortStr_pairwise l2)

theorem insDescBySim_perm (x : String × String × Nat) :
    ∀ l : List (String × String × Nat), (insDescBySim x l).Perm (x :: l)
  | [] => List.Perm.refl _
  | y :: ys => by
    simp only [insDescBySim]
    by_cases h : y.2.2 ≤ x.2.2
    · simp [h]
    · simp only [h, if_false]
      exact ((insDescBySim_perm x ys).cons y).trans (List.Perm.swap x y ys)

theorem sortDescBySim_perm : ∀ l : List (String × String × Nat),
    (sortDescBySim l).Perm l
  | [] => List.Perm.refl _
  | x :: xs => (insDescBySim_perm x (sortDescBySim xs)).trans ((sortDescBySim_perm xs).cons x)

theorem insDescBySim_pairwise (x : String × String × Nat) :
    ∀ {l : List (String × String × Nat)}, l.Pairwise (fun a b => b.2.2 ≤ a.2.2) →
      (insDescBySim x l).Pairwise (fun a b => b.2.2 ≤ a.2.2)
  | [], _ => by simp [insDescBySim]
  | y :: ys, h => by
    simp only [insDescBySim]
    rcases List.pairwise_cons.mp h with ⟨hy, hys⟩
    by_cases hxy : y.2.2 ≤ x.2.2
    · simp only [hxy, if_true]
      refine List.pairwise_cons.mpr ⟨?_, h⟩
      intro b hb
      rcases List.mem_cons.mp hb with hb | hb
      · exact hb ▸ hxy
      · exact le_trans (hy b hb) hxy
    · simp only [hxy, if_false]
      refine List.pairwise_cons.mpr ⟨?_, insDescBySim_pairwise x hys⟩
      intro b hb
      have hmem : b ∈ x :: ys := (insDescBySim_perm x ys).mem_iff.mp hb
      rcases List.mem_cons.mp hmem with hmem | hmem
      · exact hmem ▸ le_of_not_le hxy
      · exact hy b hmem

theorem sortDescBySim_pairwise : ∀ l : List (String × String × Nat),
    (sortDescBySim l).Pairwise (fun a b => b.2.2 ≤ a.2.2)
  | [] => List.Pairwise.nil
  | x :: xs => insDescBySim_pairwise x (sortDescBySim_pairwise xs)

/-! ### Association-list and bucket lemmas -/

theorem alookup_mem [DecidableEq κ] :
    ∀ {m : List (κ × α)} {k : κ} {v : α}, alookup m k = some v → (k, v) ∈ m
  | [], _, _, h => by simp [alookup] at h
  | (k1, v1) :: rest, k, v, h => by
    simp only [alookup] at h
    by_cases hk : k = k1
    · simp only [hk, if_true] at h
      exact hk ▸ (Option.some.injEq _ _ ▸ h) ▸ List.mem_cons_self _ _
    · simp only [hk, if_false] at h
      exact List.mem_cons_of_mem _ (alookup_mem h)

theorem alookup_eq_none [DecidableEq κ] :
    ∀ {m : List (κ × α)} {k : κ}, k ∉ m.map Prod.fst → alookup m k = none
  | [], _, _ => rfl
  | (k1, v1) :: rest, k, h => by
    simp only [List.map_cons, List.mem_cons] at h
    push_neg at h
    simp only [alookup, h.1, if_false]
    exact alookup_eq_none h.2

theorem alookup_isSome_iff [DecidableEq κ] :
    ∀ {m : List (κ × α)} {k : κ}, (alookup m k).isSome = true ↔ k ∈ m.map Prod.fst
  | [], k => by simp [alookup]
  | (k1, v1) :: rest, k => by
    simp only [alookup, List.map_cons, List.mem_cons]
    by_cases hk : k = k1
    · simp [hk]
    · simp only [hk, if_false, false_or]
      exact alookup_isSome_iff

theorem alookup_of_mem_nodup [DecidableEq κ] :
    ∀ {m : List (κ × α)} {k : κ} {v : α},
      (m.map Prod.fst).Nodup → (k, v) ∈ m → alookup m k = some v
  | [], _, _, _, h => by simp at h
  | (k1, v1) :: rest, k, v, hnd, h => by
    rcases List.mem_cons.mp h with h | h
    · rcases Prod.mk.injEq .. ▸ h with ⟨h1, h2⟩
      simp [alookup, h1, h2]
    · have hk : k ≠ k1 := by
        intro hkk
        have : k1 ∈ rest.map Prod.fst :=
          List.mem_map.mpr ⟨(k, v), h, by simp [hkk]⟩
        exact (List.nodup_cons.mp (by simpa using hnd)).1 this
      simp only [alookup, hk, if_false]
      exact alookup_of_mem_nodup (List.nodup_cons.mp (by simpa using hnd)).2 h

theorem alookup_append_left [DecidableEq κ] :
    ∀ {m1 m2 : List (κ × α)} {k : κ} {v : α},
      alookup m1 k = some v → alookup (m1 ++ m2) k = some v
  | [], _, _, _, h => by simp [alookup] at h
  | (k1, v1) :: rest, m2, k, v, h => by
    simp only [alookup, List.cons_append] at h ⊢
    by_cases hk : k = k1
    · simpa [hk] using h
    · simp only [hk, if_false] at h ⊢
      exact alookup_append_left h

theorem bucketAppend_alookup [DecidableEq κ] :
    ∀ (m : List (κ × List α)) (k : κ) (v : α) (k' : κ),
      alookup (bucketAppend m k v) k' =
        if k' = k then some ((alookup m k).getD [] ++ [v]) else alookup m k'
  | [], k, v, k' => by
    by_cases h : k' = k <;> simp [bucketAppend, alookup, h]
  | (k1, vs) :: rest, k, v, k' => by
    simp only [bucketAppend]
    by_cases h1 : k = k1
    · subst h1
      by_cases h2 : k' = k <;> simp [alookup, h2]
    · simp only [h1, if_false]
      by_cases h2 : k' = k1
      · subst h2
        simp only [alookup, if_pos rfl]
        have : ¬ k' = k := fun h => h1 (h ▸ rfl)
        simp [this]
      · simp only [alookup, h2, if_false]
        rw [bucketAppend_alookup rest k v k']
        by_cases h3 : k' = k
        · subst h3
          simp [alookup, h1, h2]
        · simp [h3]

theorem bucketAppend_fst [DecidableEq κ] :
    ∀ (m : List (κ × List α)) (k : κ) (v : α),
      (bucketAppend m k v).map Prod.fst =
        if k ∈ m.map Prod.fst then m.map Prod.fst else m.map Prod.fst ++ [k]
  | [], k, v => by simp [bucketAppend]
  | (k1, vs) :: rest, k, v => by
    simp only [bucketAppend, List.map_cons, List.mem_cons]
    by_cases h1 : k = k1
    · simp [h1]
    · have : ¬ k1 = k := fun h => h1 (h ▸ rfl)
      simp only [h1, if_false, List.map_cons, bucketAppend_fst rest k v]
      by_cases h2 : k ∈ rest.map Prod.fst <;> simp [h2, h1]

theorem bucketAppend_keys_nodup [DecidableEq κ] {m : List (κ × List α)}
    (h : (m.map Prod.fst).Nodup) (k : κ) (v : α) :
    ((bucketAppend m k v).map Prod.fst).Nodup := by
  rw [bucketAppend_fst]
  by_cases hk : k ∈ m.map Prod.fst
  · simpa [hk] using h
  · simp only [hk, if_false]
    refine List.nodup_append.mpr ⟨h, List.nodup_singleton k, ?_⟩
    intro x hx hxk
    rw [List.mem_singleton] at hxk
    exact hk (hxk ▸ hx)

theorem bucketAppend_flatten_perm [DecidableEq κ] :
    ∀ (m : List (κ × List α)) (k : κ) (v : α),
      ((bucketAppend m k v).map Prod.snd).flatten.Perm (v :: (m.map Prod.snd).flatten)
  | [], k, v => by simp [bucketAppend]
  | (k1, vs) :: rest, k, v => by
    simp only [bucketAppend]
    by_cases h1 : k = k1
    · simp only [h1, if_true, List.map_cons, List.flatten_cons, List.append_assoc,
        List.singleton_append]
      exact List.perm_middle
    · simp only [h1, if_false, List.map_cons, List.flatten_cons]
      exact (List.Perm.append_left vs (bucketAppend_flatten_perm rest k v)).trans
        List.perm_middle

/-! ### `fingerprints` / `fp_to_names` characterizations -/

theorem fpToNames_fold_get :
    ∀ (fps : List (String × List String)) (m0 : List (String × List String)) (k : String),
      (alookup (fps.foldl (fun m nf => bucketAppend m (compute_fingerprint nf.2) nf.1) m0) k).getD []
        = (alookup m0 k).getD []
          ++ (fps.filter (fun nf => decide (compute_fingerprint nf.2 = k))).map Prod.fst
  | [], m0, k => by simp
  | nf :: fps, m0, k => by
    simp only [List.foldl_cons, List.filter_cons]
    rw [fpToNames_fold_get fps _ k]
    by_cases h : compute_fingerprint nf.2 = k
    · simp [bucketAppend_alookup, h, List.append_assoc]
    · have h' : ¬ k = compute_fingerprint nf.2 := fun hh => h hh.symm
      simp [bucketAppend_alookup, h, h']

theorem fpToNames_get (fps : List (String × List String)) (k : String) :
    (alookup (fpToNames fps) k).getD []
      = (fps.filter (fun nf => decide (compute_fingerprint nf.2 = k))).map Prod.fst := by
  simpa [fpToNames] using fpToNames_fold_get fps [] k

theorem fpToNames_keys_nodup (fps : List (String × List String)) :
    ((fpToNames fps).map Prod.fst).Nodup := by
  suffices h : ∀ (l : List (String × List String)) (m0 : List (String × List String)),
      (m0.map Prod.fst).Nodup →
      ((l.foldl (fun m nf => bucketAppend m (compute_fingerprint nf.2) nf.1) m0).map
        Prod.fst).Nodup by
    exact h fps [] (by simp)
  intro l
  induction l with
  | nil => exact fun m0 h => h
  | cons nf l ih =>
    intro m0 h0
    exact ih _ (bucketAppend_keys_nodup h0 _ _)

theorem fpToNames_flatten_perm (fps : List (String × List String)) :
    ((fpToNames fps).map Prod.snd).flatten.Perm (fps.map Prod.fst) := by
  suffices h : ∀ (l : List (String × List String)) (m0 : List (String × List String)),
      ((l.foldl (fun m nf => bucketAppend m (compute_fingerprint nf.2) nf.1) m0).map
          Prod.snd).flatten.Perm
        ((m0.map Prod.snd).flatten ++ l.map Prod.fst) by
    simpa [fpToNames] using h fps []
  intro l
  induction l with
  | nil => exact fun m0 => by simp
  | cons nf l ih =>
    intro m0
    refine (ih _).trans ?_
    refine (List.Perm.append_right (l.map Prod.fst) (bucketAppend_flatten_perm m0 _ _)).trans ?_
    simp only [List.cons_append]
    exact List.perm_middle.symm

theorem fingerprintsOf_fst_sublist (icons : List (String × String)) :
    ((fingerprintsOf icons).map Prod.fst).Sublist (icons.map Prod.fst) := by
  induction icons with
  | nil => simp [fingerprintsOf]
  | cons nd icons ih =>
    simp only [fingerprintsOf, List.filterMap_cons] at ih ⊢
    by_cases h : normalize_paths nd.2 = []
    · simp only [h, if_pos rfl]
      exact ih.trans (List.sublist_cons_self _ _)
    · simp only [h, if_neg h]
      exact List.Sublist.cons₂ _ ih

theorem mem_fingerprintsOf_iff {icons : List (String × String)} {n : String}
    {paths : List String} :
    (n, paths) ∈ fingerprintsOf icons ↔
      ∃ svg, (n, svg) ∈ icons ∧ normalize_paths svg = paths ∧ paths ≠ [] := by
  simp only [fingerprintsOf, List.mem_filterMap]
  constructor
  · rintro ⟨⟨n', svg⟩, hmem, hf⟩
    by_cases h : normalize_paths svg = []
    · simp [h] at hf
    · rw [if_neg h] at hf
      simp only [Option.some.injEq, Prod.mk.injEq] at hf
      exact ⟨svg, hf.1 ▸ hmem, hf.2, hf.2 ▸ h⟩
  · rintro ⟨svg, hmem, hnp, hne⟩
    refine ⟨(n, svg), hmem, ?_⟩
    have h : ¬ normalize_paths svg = [] := hnp ▸ hne
    rw [if_neg h, hnp]

theorem fingerprintsOf_cons (nd : String × String) (icons : List (String × String)) :
    fingerprintsOf (nd :: icons)
      = if normalize_paths nd.2 = [] then fingerprintsOf icons
        else (nd.1, normalize_paths nd.2) :: fingerprintsOf icons := by
  by_cases h : normalize_paths nd.2 = [] <;>
    simp [fingerprintsOf, List.filterMap_cons, h]

theorem fingerprintsOf_alookup :
    ∀ {icons : List (String × String)}, (icons.map Prod.fst).Nodup → ∀ n : String,
      alookup (fingerprintsOf icons) n
        = (alookup icons n).bind
            (fun svg => if normalize_paths svg = [] then none else some (normalize_paths svg))
  | [], _, n => by simp [fingerprintsOf, alookup]
  | ⟨n1, s1⟩ :: icons, hnd, n => by
    rw [List.map_cons] at hnd
    rcases List.nodup_cons.mp hnd with ⟨hhd, htl⟩
    rw [fingerprintsOf_cons]
    by_cases h : normalize_paths s1 = []
    · rw [if_pos h]
      by_cases hn : n = n1
      · subst hn
        have hnone : alookup (fingerprintsOf icons) n = none :=
          alookup_eq_none (fun hmem => hhd ((fingerprintsOf_fst_sublist icons).subset hmem))
        rw [hnone]
        simp [alookup, h]
      · rw [fingerprintsOf_alookup htl n]
        simp [alookup, hn]
    · rw [if_neg h]
      by_cases hn : n = n1
      · subst hn
        simp [alookup, h]
      · simp only [alookup, hn, if_false]
        exact fingerprintsOf_alookup htl n

/-! ### Flatten lemmas -/

theorem flatten_sublist {l1 l2 : List (List α)} (h : l1.Sublist l2) :
    l1.flatten.Sublist l2.flatten := by
  induction h with
  | slnil => simp
  | cons a _ ih =>
    exact ih.trans (by simp [List.sublist_append_right])
  | cons₂ a _ ih =>
    simpa using List.Sublist.append_left ih a

theorem flatten_map_pySortStr_perm (bs : List (List String)) :
    ((bs.map pySortStr).flatten).Perm bs.flatten := by
  induction bs with
  | nil => simp
  | cons b bs ih =>
    simpa using List.Perm.append (pySortStr_perm b) ih

/-! ### Strict order on strings and pair enumeration -/

theorem strLtb_irrefl (x : String) : strLtb x x = false := lexLt_irrefl _

theorem strLtb_asymm {x y : String} (h : strLtb x y = true) : strLtb y x = false :=
  lexLt_asymm h

theorem strLtb_of_leb_ne {x y : String} (hle : strLeb x y = true) (hne : x ≠ y) :
    strLtb x y = true := by
  rcases strLeb_iff.mp hle with h | h
  · exact h
  · exact absurd h hne

theorem pairsOf_mem_both : ∀ {l : List α} {p : α × α}, p ∈ pairsOf l → p.1 ∈ l ∧ p.2 ∈ l
  | [], p, h => absurd h (List.not_mem_nil p)
  | x :: xs, p, h => by
    simp only [pairsOf, List.mem_append] at h
    rcases h with h | h
    · rcases List.mem_map.mp h with ⟨y, hy, hxy⟩
      subst hxy
      exact ⟨List.mem_cons_self x xs, List.mem_cons_of_mem x hy⟩
    · have := pairsOf_mem_both h
      exact ⟨List.mem_cons_of_mem x this.1, List.mem_cons_of_mem x this.2⟩

theorem pairsOf_mem_iff :
    ∀ {l : List String}, l.Pairwise (fun a b => strLtb a b = true) →
      ∀ {a b : String}, ((a, b) ∈ pairsOf l ↔ a ∈ l ∧ b ∈ l ∧ strLtb a b = true)
  | [], _, a, b => by simp [pairsOf]
  | x :: xs, h, a, b => by
    rcases List.pairwise_cons.mp h with ⟨hx, hxs⟩
    simp only [pairsOf, List.mem_append]
    constructor
    · rintro (hmem | hmem)
      · rcases List.mem_map.mp hmem with ⟨y, hy, hxy⟩
        have h1 : x = a := congrArg Prod.fst hxy
        have h2 : y = b := congrArg Prod.snd hxy
        subst h1
        subst h2
        exact ⟨List.mem_cons_self _ _, List.mem_cons_of_mem _ hy, hx _ hy⟩
      · have := (pairsOf_mem_iff hxs).mp hmem
        exact ⟨List.mem_cons_of_mem _ this.1, List.mem_cons_of_mem _ this.2.1, this.2.2⟩
    · rintro ⟨ha, hb, hlt⟩
      rcases List.mem_cons.mp ha with ha1 | ha2
      · rcases List.mem_cons.mp hb with hb1 | hb2
        · have hab : a = b := ha1.trans hb1.symm
          rw [hab] at hlt
          exact absurd hlt (by simp [strLtb_irrefl])
        · exact Or.inl (List.mem_map.mpr ⟨b, hb2, by rw [ha1]⟩)
      · rcases List.mem_cons.mp hb with hb1 | hb2
        · rw [hb1] at hlt
          exact absurd (hx a ha2) (by simp [strLtb_asymm hlt])
        · exact Or.inr ((pairsOf_mem_iff hxs).mpr ⟨ha2, hb2, hlt⟩)

theorem one_lt_length_of_two_mem {l : List α} {a b : α} (ha : a ∈ l) (hb : b ∈ l)
    (hab : a ≠ b) : 1 < l.length := by
  match l with
  | [] => exact absurd ha (List.not_mem_nil a)
  | [x] =>
    rw [List.mem_singleton] at ha hb
    exact absurd (ha.trans hb.symm) hab
  | x :: y :: t => simp [List.length_cons]

/-! ### Exact-group characterizations -/

theorem exactGroups_mem_iff {icons : List (String × String)} {g : List String} :
    g ∈ exactGroupsOf icons ↔
      ∃ k vs, (k, vs) ∈ fpToNames (fingerprintsOf icons) ∧ 1 < vs.length
        ∧ g = pySortStr vs := by
  simp only [exactGroupsOf, List.mem_map, List.mem_filter]
  constructor
  · rintro ⟨vs, ⟨⟨⟨k, vs'⟩, hkvs, hsnd⟩, hlen⟩, hg⟩
    refine ⟨k, vs, ?_, of_decide_eq_true hlen, hg.symm⟩
    rwa [show vs' = vs from hsnd] at hkvs
  · rintro ⟨k, vs, hmem, hlen, hg⟩
    exact ⟨vs, ⟨⟨(k, vs), hmem, rfl⟩, decide_eq_true hlen⟩, hg.symm⟩

theorem bucket_value_eq {fps : List (String × List String)} {k : String}
    {vs : List String} (h : (k, vs) ∈ fpToNames fps) :
    vs = (fps.filter (fun nf => decide (compute_fingerprint nf.2 = k))).map Prod.fst := by
  have h1 := alookup_of_mem_nodup (fpToNames_keys_nodup fps) h
  have h2 := fpToNames_get fps k
  rw [h1] at h2
  simpa using h2

theorem bucket_member {fps : List (String × List String)} {k : String} {vs : List String}
    (h : (k, vs) ∈ fpToNames fps) {n : String} (hn : n ∈ vs) :
    ∃ paths, (n, paths) ∈ fps ∧ compute_fingerprint paths = k := by
  rw [bucket_value_eq h] at hn
  rcases List.mem_map.mp hn with ⟨⟨n', paths⟩, hmem, hfst⟩
  rcases List.mem_filter.mp hmem with ⟨hmem', hfp⟩
  refine ⟨paths, ?_, of_decide_eq_true hfp⟩
  rwa [show n' = n from hfst] at hmem'

theorem mem_bucket_of_fps {fps : List (String × List String)} {n : String}
    {paths : List String} (h : (n, paths) ∈ fps) :
    n ∈ (alookup (fpToNames fps) (compute_fingerprint paths)).getD [] := by
  rw [fpToNames_get]
  exact List.mem_map.mpr ⟨(n, paths), List.mem_filter.mpr ⟨h, by simp⟩, rfl⟩

theorem fps_entry_fingerprint {icons : List (String × String)}
    (hnd : (icons.map Prod.fst).Nodup) {n : String} {paths : List String}
    (h : (n, paths) ∈ fingerprintsOf icons) :
    iconFingerprint icons n = compute_fingerprint paths ∧ paths ≠ [] := by
  rcases mem_fingerprintsOf_iff.mp h with ⟨svg, hmem, hnp, hne⟩
  have hl := alookup_of_mem_nodup hnd hmem
  exact ⟨by simp [iconFingerprint, hl, hnp], hne⟩

/-! ### Near-duplicate loop characterizations -/

theorem sameExactGroup_iff (groups : List (List String)) (a b : String) :
    sameExactGroup groups a b = true ↔ ∃ g ∈ groups, a ∈ g ∧ b ∈ g := by
  unfold sameExactGroup
  simp only [Bool.and_eq_true, decide_eq_true_eq, List.any_eq_true]
  constructor
  · rintro ⟨-, g, hg, ha, hb⟩
    exact ⟨g, hg, ha, hb⟩
  · rintro ⟨g, hg, ha, hb⟩
    exact ⟨⟨List.mem_flatten.mpr ⟨g, hg, ha⟩, List.mem_flatten.mpr ⟨g, hg, hb⟩⟩,
      g, hg, ha, hb⟩

theorem nearPairDecision_some_iff (fps : List (String × List String))
    (groups : List (List String)) (ab : String × String) (p : String × String × Nat) :
    nearPairDecision fps groups ab = some p ↔
      (¬ fpStrOf fps ab.1 = "" ∧ ¬ sameExactGroup groups ab.1 ab.2 = true
       ∧ ¬ fpStrOf fps ab.2 = ""
       ∧ ¬ ((decide (0 < (fpStrOf fps ab.1).data.length)
            && decide (0 < (fpStrOf fps ab.2).data.length)
            && decide (5 * min (fpStrOf fps ab.1).data.length (fpStrOf fps ab.2).data.length
                < 2 * max (fpStrOf fps ab.1).data.length (fpStrOf fps ab.2).data.length))
              = true)
       ∧ 4 * ((fpStrOf fps ab.1).data.length + (fpStrOf fps ab.2).data.length)
           ≤ 10 * seqMatchTotal (fpStrOf fps ab.1) (fpStrOf fps ab.2)
       ∧ p = (ab.1, ab.2,
          round3Thousandths (seqMatchTotal (fpStrOf fps ab.1) (fpStrOf fps ab.2))
            ((fpStrOf fps ab.1).data.length + (fpStrOf fps ab.2).data.length))) := by
  simp only [nearPairDecision]
  by_cases h1 : fpStrOf fps ab.1 = ""
  · simp [h1]
  · rw [if_neg h1]
    by_cases h2 : sameExactGroup groups ab.1 ab.2 = true
    · simp [h1, h2]
    · rw [if_neg h2]
      by_cases h3 : fpStrOf fps ab.2 = ""
      · simp [h1, h2, h3]
      · rw [if_neg h3]
        by_cases h4 : ((decide (0 < (fpStrOf fps ab.1).data.length)
            && decide (0 < (fpStrOf fps ab.2).data.length)
            && decide (5 * min (fpStrOf fps ab.1).data.length (fpStrOf fps ab.2).data.length
                < 2 * max (fpStrOf fps ab.1).data.length (fpStrOf fps ab.2).data.length))
              = true)
        · rw [if_pos h4]
          constructor
          · intro h
            exact absurd h (by simp)
          · rintro ⟨-, -, -, h4', -⟩
            exact absurd h4 h4'
        · rw [if_neg h4]
          by_cases h5 : 4 * ((fpStrOf fps ab.1).data.length
              + (fpStrOf fps ab.2).data.length)
              ≤ 10 * seqMatchTotal (fpStrOf fps ab.1) (fpStrOf fps ab.2)
          · rw [if_pos h5]
            simp only [Option.some.injEq]
            constructor
            · intro h
              exact ⟨h1, h2, h3, h4, h5, h.symm⟩
            · rintro ⟨-, -, -, -, -, h⟩
              exact h.symm
          · rw [if_neg h5]
            constructor
            · intro h
              exact absurd h (by simp)
            · rintro ⟨-, -, -, -, h5', -⟩
              exact absurd h5' h5

theorem mem_nearPairs_iff (icons : List (String × String)) (p : String × String × Nat) :
    p ∈ (find_redundant_groups icons).2 ↔
      ((p.1, p.2.1) ∈ pairsOf (pySortStr ((fingerprintsOf icons).map Prod.fst))
        ∧ nearPairDecision (fingerprintsOf icons) (exactGroupsOf icons) (p.1, p.2.1)
            = some p) := by
  show p ∈ sortDescBySim (nearPairsUnsorted icons) ↔ _
  rw [(sortDescBySim_perm (nearPairsUnsorted icons)).mem_iff]
  show p ∈ (pairsOf _).filterMap _ ↔ _
  rw [List.mem_filterMap]
  constructor
  · rintro ⟨ab, hab, hdec⟩
    have hshape :=
      ((nearPairDecision_some_iff _ _ ab p).mp hdec).2.2.2.2.2
    have hab1 : ab.1 = p.1 := by rw [hshape]
    have hab2 : ab.2 = p.2.1 := by rw [hshape]
    have : ab = (p.1, p.2.1) := Prod.ext hab1 hab2
    rw [this] at hab hdec
    exact ⟨hab, hdec⟩
  · rintro ⟨hmem, hdec⟩
    exact ⟨(p.1, p.2.1), hmem, hdec⟩

/-! ## Claim theorems -/

/-- C10: the reported exact-duplicate groups are pairwise disjoint — no icon
name appears as a member of more than one group (nor twice within one):
the flattened member list of all groups of `find_redundant_groups` has no
duplicates, because grouping keys each fingerprinted icon by its full
fingerprint, placing it in exactly one bucket. -/
theorem claim_exact_groups_disjoint (icons : List (String × String))
    (hnd : (icons.map Prod.fst).Nodup) :
    ((find_redundant_groups icons).1.flatten).Nodup := by
  show ((exactGroupsOf icons).flatten).Nodup
  have h1 : ((fingerprintsOf icons).map Prod.fst).Nodup :=
    (fingerprintsOf_fst_sublist icons).nodup hnd
  have h2 := (fpToNames_flatten_perm (fingerprintsOf icons)).symm.nodup h1
  have h3 : ((((fpToNames (fingerprintsOf icons)).map Prod.snd).filter
      (fun g => decide (1 < g.length))).flatten).Nodup :=
    (flatten_sublist (List.filter_sublist _)).nodup h2
  exact (flatten_map_pySortStr_perm _).symm.nodup h3

/-- Witness for C10 at a concrete catalog with a two-member exact group. -/
theorem claim_exact_groups_disjoint_witness :
    ((find_redundant_groups sampleCatalog).1.flatten).Nodup :=
  claim_exact_groups_disjoint sampleCatalog (by decide)

/-- C3 counterexample: two icons (`emptySigCatalog`) whose filtered path-data
sets are equal (both empty, hence trivially equal up to order and
whitespace) have byte-identical fingerprints, yet they are placed in no
exact-duplicate group at all — refuting the claim's conclusion that such a
pair is always placed in the same exact-duplicate group. -/
theorem claim_signature_counterexample :
    (keptNormalized "<svg></svg>").Perm (keptNormalized "<svg></svg>")
    ∧ iconFingerprint emptySigCatalog "A" = iconFingerprint emptySigCatalog "B"
    ∧ ¬ ∃ g ∈ (find_redundant_groups emptySigCatalog).1, "A" ∈ g ∧ "B" ∈ g := by
  refine ⟨List.Perm.refl _, by decide, ?_⟩
  rintro ⟨g, hg, -⟩
  have h : (find_redundant_groups emptySigCatalog).1 = [] := by decide
  rw [h] at hg
  exact List.not_mem_nil g hg

/-- C3 (amended): signature computation is order- and whitespace-independent:
two catalog icons whose kept path-data lists (after discarding clip-path
artifacts and paths at or below the length threshold, and after whitespace
normalization) are permutations of each other get byte-identical
fingerprints, and — provided that the shared signature is nonempty — they
are placed in the same exact-duplicate group.  (The nonemptiness proviso is
what the counterexample forces: icons with no signature are excluded from
grouping.) -/
theorem claim_signature_order_ws_independent (icons : List (String × String))
    (a b sa sb : String)
    (ha : (a, sa) ∈ icons) (hb : (b, sb) ∈ icons) (hab : a ≠ b)
    (hperm : (keptNormalized sa).Perm (keptNormalized sb))
    (hne : keptNormalized sa ≠ []) :
    compute_fingerprint (normalize_paths sa) = compute_fingerprint (normalize_paths sb)
    ∧ ∃ g ∈ (find_redundant_groups icons).1, a ∈ g ∧ b ∈ g := by
  have hsort : normalize_paths sa = normalize_paths sb := pySortStr_canon hperm
  have hnpa : normalize_paths sa ≠ [] := by
    intro h
    apply hne
    have hlen := (pySortStr_perm (keptNormalized sa)).length_eq
    rw [show pySortStr (keptNormalized sa) = normalize_paths sa from rfl, h] at hlen
    exact List.length_eq_zero.mp hlen.symm
  refine ⟨by rw [hsort], ?_⟩
  have hfa : (a, normalize_paths sa) ∈ fingerprintsOf icons :=
    mem_fingerprintsOf_iff.mpr ⟨sa, ha, rfl, hnpa⟩
  have hfb : (b, normalize_paths sa) ∈ fingerprintsOf icons :=
    mem_fingerprintsOf_iff.mpr ⟨sb, hb, hsort.symm, hnpa⟩
  have ha' := mem_bucket_of_fps hfa
  have hb' := mem_bucket_of_fps hfb
  set k := compute_fingerprint (normalize_paths sa) with hk
  cases halook : alookup (fpToNames (fingerprintsOf icons)) k with
  | none =>
    rw [halook] at ha'
    exact absurd ha' (List.not_mem_nil a)
  | some vs =>
    rw [halook] at ha' hb'
    simp only [Option.getD_some] at ha' hb'
    have hmem := alookup_mem halook
    have hlen : 1 < vs.length := one_lt_length_of_two_mem ha' hb' hab
    refine ⟨pySortStr vs, exactGroups_mem_iff.mpr ⟨k, vs, hmem, hlen, rfl⟩, ?_, ?_⟩
    · exact (pySortStr_perm vs).mem_iff.mpr ha'
    · exact (pySortStr_perm vs).mem_iff.mpr hb'

/-- Witness for the amended C3 at a concrete catalog: `A` and `B` differ only
by a trailing space in their path data and land in one exact group. -/
theorem claim_signature_order_ws_independent_witness :
    compute_fingerprint (normalize_paths "<svg><path d=\"zzzzzz \"/></svg>")
      = compute_fingerprint (normalize_paths "<svg><path d=\"zzzzzz\"/></svg>")
    ∧ ∃ g ∈ (find_redundant_groups sampleCatalog).1, "A" ∈ g ∧ "B" ∈ g :=
  claim_signature_order_ws_independent sampleCatalog "A" "B"
    "<svg><path d=\"zzzzzz \"/></svg>" "<svg><path d=\"zzzzzz\"/></svg>"
    (by decide) (by decide) (by decide) (by decide) (by decide)

/-- C4 counterexample: in `wsPathCatalog` both icons' signatures consist of a
single whitespace-only path longer than the threshold, which normalizes to
the empty string — the reported exact group `["A", "B"]` exists and its
members' fingerprints are byte-identical but *empty*, refuting the claim's
"non-empty fingerprints" conjunct. -/
theorem claim_exact_groups_counterexample :
    (find_redundant_groups wsPathCatalog).1 = [["A", "B"]]
    ∧ iconFingerprint wsPathCatalog "A" = ""
    ∧ iconFingerprint wsPathCatalog "B" = "" :=
  ⟨by decide, by decide, by decide⟩

/-- An icon of the catalog with an empty signature is not a key of the
`fingerprints` dict. -/
theorem not_in_fps_names {icons : List (String × String)}
    (hnd : (icons.map Prod.fst).Nodup) {n svg : String} (hmem : (n, svg) ∈ icons)
    (hempty : normalize_paths svg = []) :
    n ∉ (fingerprintsOf icons).map Prod.fst := by
  intro hin
  rcases List.mem_map.mp hin with ⟨⟨n', paths⟩, hfps, hfst⟩
  have hn : n' = n := hfst
  subst hn
  rcases mem_fingerprintsOf_iff.mp hfps with ⟨svg', hmem', hnp, hne⟩
  have h1 := alookup_of_mem_nodup hnd hmem
  have h2 := alookup_of_mem_nodup hnd hmem'
  rw [h1] at h2
  have hsvg : svg = svg' := by injection h2
  exact hne (by rw [← hnp, ← hsvg, hempty])

/-- C4 (amended): every reported exact-duplicate group has at least two
members, all members of a group have pairwise byte-identical fingerprints
(possibly the *empty* fingerprint: a whitespace-only path longer than the
length threshold yields a nonempty signature whose fingerprint is empty, as
the counterexample shows — this is the only change from the claim), each
group lists its members sorted alphabetically, and an icon whose markup
yields no extractable path signature after filtering appears in no
exact-duplicate group and in no near-duplicate pair. -/
theorem claim_exact_groups_wellformed (icons : List (String × String))
    (hnd : (icons.map Prod.fst).Nodup) :
    (∀ g ∈ (find_redundant_groups icons).1,
      2 ≤ g.length
      ∧ (∀ m1 ∈ g, ∀ m2 ∈ g, iconFingerprint icons m1 = iconFingerprint icons m2)
      ∧ g.Pairwise (fun x y => strLeb x y = true))
    ∧ (∀ n svg, (n, svg) ∈ icons → normalize_paths svg = [] →
        (∀ g ∈ (find_redundant_groups icons).1, n ∉ g)
        ∧ (∀ p ∈ (find_redundant_groups icons).2, n ≠ p.1 ∧ n ≠ p.2.1)) := by
  constructor
  · intro g hg
    rcases exactGroups_mem_iff.mp hg with ⟨k, vs, hmem, hlen, hgeq⟩
    refine ⟨?_, ?_, ?_⟩
    · rw [hgeq, (pySortStr_perm vs).length_eq]
      omega
    · intro m1 hm1 m2 hm2
      have hm1' : m1 ∈ vs := (pySortStr_perm vs).mem_iff.mp (hgeq ▸ hm1)
      have hm2' : m2 ∈ vs := (pySortStr_perm vs).mem_iff.mp (hgeq ▸ hm2)
      rcases bucket_member hmem hm1' with ⟨p1, hp1, hk1⟩
      rcases bucket_member hmem hm2' with ⟨p2, hp2, hk2⟩
      rw [(fps_entry_fingerprint hnd hp1).1, (fps_entry_fingerprint hnd hp2).1, hk1, hk2]
    · rw [hgeq]
      exact pySortStr_pairwise vs
  · intro n svg hmem hempty
    have hnot := not_in_fps_names hnd hmem hempty
    constructor
    · intro g hg hn
      rcases exactGroups_mem_iff.mp hg with ⟨k, vs, hmemb, hlen, hgeq⟩
      have hn' : n ∈ vs := (pySortStr_perm vs).mem_iff.mp (hgeq ▸ hn)
      rcases bucket_member hmemb hn' with ⟨paths, hp, -⟩
      exact hnot (List.mem_map.mpr ⟨(n, paths), hp, rfl⟩)
    · intro p hp
      rcases (mem_nearPairs_iff icons p).mp hp with ⟨hpair, -⟩
      have hboth := pairsOf_mem_both hpair
      constructor
      · intro h
        have hmemn : p.1 ∈ (fingerprintsOf icons).map Prod.fst :=
          (pySortStr_perm _).mem_iff.mp hboth.1
        rw [← h] at hmemn
        exact hnot hmemn
      · intro h
        have hmemn : p.2.1 ∈ (fingerprintsOf icons).map Prod.fst :=
          (pySortStr_perm _).mem_iff.mp hboth.2
        rw [← h] at hmemn
        exact hnot hmemn

/-- Witness for the amended C4: the two members of the exact group of
`sampleCatalog` carry the same fingerprint. -/
theorem claim_exact_groups_wellformed_witness :
    iconFingerprint sampleCatalog "A" = iconFingerprint sampleCatalog "B" :=
  ((claim_exact_groups_wellformed sampleCatalog (by decide)).1
    ["A", "B"] (by decide)).2.1 "A" (by decide) "B" (by decide)

/-! ### Fingerprint join injectivity (for the amended C9) -/

theorem intercalate_sep_nil : List.intercalate ['|'] ([] : List Str) = [] := by
  simp [List.intercalate]

theorem intercalate_sep_one (x : Str) : List.intercalate ['|'] [x] = x := by
  simp [List.intercalate]

theorem intercalate_sep_two (x y : Str) (t : List Str) :
    List.intercalate ['|'] (x :: y :: t) = x ++ '|' :: List.intercalate ['|'] (y :: t) := by
  simp [List.intercalate, List.intersperse]

theorem sep_split_unique : ∀ {x y R1 R2 : Str}, ¬ '|' ∈ x → ¬ '|' ∈ y →
    x ++ '|' :: R1 = y ++ '|' :: R2 → x = y ∧ R1 = R2
  | [], [], _, _, _, _, h => ⟨rfl, by simpa using h⟩
  | [], c :: y', _, _, _, hy, h => by
    simp only [List.nil_append, List.cons_append, List.cons.injEq] at h
    exact absurd (by rw [← h.1]; exact List.mem_cons_self _ _) hy
  | c :: x', [], _, _, hx, _, h => by
    simp only [List.cons_append, List.nil_append, List.cons.injEq] at h
    exact absurd (by rw [h.1]; exact List.mem_cons_self _ _) hx
  | c :: x', d :: y', _, _, hx, hy, h => by
    simp only [List.cons_append, List.cons.injEq] at h
    have hx' : ¬ '|' ∈ x' := fun hm => hx (List.mem_cons_of_mem _ hm)
    have hy' : ¬ '|' ∈ y' := fun hm => hy (List.mem_cons_of_mem _ hm)
    have ih := sep_split_unique hx' hy' h.2
    exact ⟨by rw [h.1, ih.1], ih.2⟩

theorem fp_join_inj : ∀ {t1 t2 : List Str},
    (∀ p ∈ t1, ¬ '|' ∈ p ∧ p ≠ []) → (∀ p ∈ t2, ¬ '|' ∈ p ∧ p ≠ []) →
    List.intercalate ['|'] t1 = List.intercalate ['|'] t2 → t1 = t2
  | [], [], _, _, _ => rfl
  | [], [y], _, h2, h => by
    rw [intercalate_sep_nil, intercalate_sep_one] at h
    exact absurd h.symm (h2 y (List.mem_cons_self _ _)).2
  | [], y :: y2 :: t2, _, _, h => by
    rw [intercalate_sep_nil, intercalate_sep_two] at h
    exact absurd h.symm (by simp)
  | [x], [], h1, _, h => by
    rw [intercalate_sep_nil, intercalate_sep_one] at h
    exact absurd h (h1 x (List.mem_cons_self _ _)).2
  | x :: x2 :: t1, [], _, _, h => by
    rw [intercalate_sep_nil, intercalate_sep_two] at h
    exact absurd h (by simp)
  | [x], [y], _, _, h => by
    rw [intercalate_sep_one, intercalate_sep_one] at h
    rw [h]
  | [x], y :: y2 :: t2, h1, _, h => by
    rw [intercalate_sep_one, intercalate_sep_two] at h
    exact absurd (by rw [h]; exact List.mem_append_right y (List.mem_cons_self _ _))
      (h1 x (List.mem_cons_self _ _)).1
  | x :: x2 :: t1, [y], _, h2, h => by
    rw [intercalate_sep_two, intercalate_sep_one] at h
    exact absurd (by rw [← h]; exact List.mem_append_right x (List.mem_cons_self _ _))
      (h2 y (List.mem_cons_self _ _)).1
  | x :: x2 :: t1, y :: y2 :: t2, h1, h2, h => by
    rw [intercalate_sep_two, intercalate_sep_two] at h
    have hsplit := sep_split_unique (h1 x (List.mem_cons_self _ _)).1
      (h2 y (List.mem_cons_self _ _)).1 h
    have htail := fp_join_inj (fun p hp => h1 p (List.mem_cons_of_mem _ hp))
      (fun p hp => h2 p (List.mem_cons_of_mem _ hp)) hsplit.2
    rw [hsplit.1, htail]

theorem map_data_inj : ∀ {t1 t2 : List String},
    t1.map String.data = t2.map String.data → t1 = t2
  | [], [], _ => rfl
  | [], _ :: _, h => by simp at h
  | _ :: _, [], h => by simp at h
  | x :: t1, y :: t2, h => by
    simp only [List.map_cons, List.cons.injEq] at h
    rw [string_eq_of_data h.1, map_data_inj h.2]

/-- C9 counterexample: the separator `|` *can* appear inside normalized path
data, and two different signatures then join to the same fingerprint — the
"only if" direction of the claim fails. -/
theorem claim_fingerprint_separator_counterexample :
    compute_fingerprint (normalize_paths sepSvg1)
      = compute_fingerprint (normalize_paths sepSvg2)
    ∧ normalize_paths sepSvg1 ≠ normalize_paths sepSvg2
    ∧ ∃ p ∈ normalize_paths sepSvg1, '|' ∈ p.data :=
  ⟨by decide, by decide, ⟨"aaaaaaa|bbbbbbb", by decide, by decide⟩⟩

/-- C9 (amended): fingerprint equality always follows from signature
equality, and the converse holds for signatures whose path-data strings are
nonempty and free of the separator character (the counterexample forces
both restrictions: the separator can occur inside path data, and an empty
component also breaks injectivity). -/
theorem claim_fingerprint_separator_amended (t1 t2 : List String)
    (h1 : ∀ p ∈ t1, ¬ '|' ∈ p.data ∧ p ≠ "")
    (h2 : ∀ p ∈ t2, ¬ '|' ∈ p.data ∧ p ≠ "") :
    compute_fingerprint t1 = compute_fingerprint t2 ↔ t1 = t2 := by
  constructor
  · intro h
    have hdata : List.intercalate ['|'] (t1.map String.data)
        = List.intercalate ['|'] (t2.map String.data) := congrArg String.data h
    refine map_data_inj (fp_join_inj ?_ ?_ hdata)
    · intro p hp
      rcases List.mem_map.mp hp with ⟨q, hq, hqd⟩
      refine ⟨by rw [← hqd]; exact (h1 q hq).1, ?_⟩
      intro hnil
      exact (h1 q hq).2 (string_eq_of_data (by rw [hqd, hnil]))
    · intro p hp
      rcases List.mem_map.mp hp with ⟨q, hq, hqd⟩
      refine ⟨by rw [← hqd]; exact (h2 q hq).1, ?_⟩
      intro hnil
      exact (h2 q hq).2 (string_eq_of_data (by rw [hqd, hnil]))
  · intro h
    rw [h]

/-- Witness for the amended C9 at concrete separator-free signatures. -/
theorem claim_fingerprint_separator_amended_witness :
    compute_fingerprint ["aaaaaa", "bbbbbb"] = compute_fingerprint ["aaaaaa", "bbbbbb"]
      ↔ ["aaaaaa", "bbbbbb"] = (["aaaaaa", "bbbbbb"] : List String) :=
  claim_fingerprint_separator_amended _ _ (by decide) (by decide)

/-! ### C1, C8, C2 -/

/-- C1: extraction yields nothing exactly when the markup is unparseable.
For compiled-component input this is exactly when the viewbox search fails
or when the list of drawable elements (paths and circles) is empty; for
source-component input, exactly when no opening/closing svg tag pair is
found.  In particular any compiled markup lacking a viewbox declaration
yields nothing regardless of other content, and any compiled markup with a
viewbox but no drawable elements yields nothing. -/
theorem claim_extraction_none_iff :
    (∀ s : Str, extract_svg_from_js s = none ↔ (findViewBox s = none ∨ jsElements s = []))
    ∧ (∀ s : Str, extract_svg_from_tsx s = none ↔ findSvgTagMatch s = none) := by
  constructor
  · intro s
    unfold extract_svg_from_js
    cases h : findViewBox s with
    | none => simp
    | some vb =>
      by_cases he : jsElements s = [] <;> simp [he]
  · intro s
    unfold extract_svg_from_tsx
    cases h : findSvgTagMatch s with
    | none => simp
    | some p =>
      obtain ⟨o, i⟩ := p
      simp

/-- C8 counterexample: on the spec example's compiled input the extractor
emits the assembled string with the full namespace URL and no stray text;
this differs from the output string the claim asserts (which contains
`adbde1 → ` before the path and an elided `xmlns="..."`). -/
theorem claim_example_counterexample :
    extract_svg_from_js exampleJsInput = some exampleActualOutput
    ∧ some exampleActualOutput ≠ some exampleClaimedOutput :=
  ⟨by decide, by decide⟩

/-- C8 (amended): the worked example yields exactly
`<svg width="24" height="24" viewBox="0 0 24 24" fill="none"
xmlns="http://www.w3.org/2000/svg"><path d="M1 1L2 2" fill="#333"/></svg>` —
a single path element with the default fill; the amendment removes the
claimed output's stray `adbde1 → ` text and spells out the namespace. -/
theorem claim_example_output :
    extract_svg_from_js exampleJsInput = some exampleActualOutput := by
  decide

/-- C2 counterexample: in the source-component extractor a sentinel-valued
fill (`fill="undefined"`) passes through to the emitted markup unchanged,
and no default color is introduced — refuting the claim that sentinel fills
are normalized in both extractors. -/
theorem claim_fill_normalization_counterexample :
    extract_svg_from_tsx sentinelTsxInput = some sentinelTsxInput
    ∧ strCont "fill=\"undefined\"".data sentinelTsxInput = true
    ∧ strCont "#333".data sentinelTsxInput = false :=
  ⟨by decide, by decide, by decide⟩

/-! Auxiliary lemmas: the circle pattern's fill group never captures. -/

theorem dropWhile_head_not (p : Char → Bool) :
    ∀ {l : Str} {c : Char}, (l.dropWhile p).head? = some c → p c = false
  | [], c, h => by simp at h
  | a :: l, c, h => by
    rw [List.dropWhile_cons] at h
    by_cases ha : p a
    · rw [if_pos ha] at h
      exact dropWhile_head_not p h
    · rw [if_neg ha] at h
      simp only [List.head?_cons, Option.some.injEq] at h
      have hf : p a = false := Bool.eq_false_iff.mpr ha
      rwa [h] at hf

theorem drop_takeWhile_len (p : Char → Bool) :
    ∀ l : Str, l.drop (l.takeWhile p).length = l.dropWhile p
  | [] => rfl
  | a :: l => by
    rw [List.takeWhile_cons, List.dropWhile_cons]
    by_cases ha : p a
    · rw [if_pos ha, if_pos ha]
      simpa using drop_takeWhile_len p l
    · rw [if_neg ha, if_neg ha]
      simp

theorem charAt_after_run (p : Char → Bool) (s : Str) (i : Nat) {c : Char}
    (h : charAt s (i + runLen p s i) = some c) : p c = false := by
  have hsplit : s.drop (i + runLen p s i) = (s.drop i).dropWhile p := by
    rw [← drop_takeWhile_len p (s.drop i), List.drop_drop]
    rfl
  unfold charAt at h
  rw [hsplit] at h
  exact dropWhile_head_not p h

theorem litAt_fill_false {s : Str} {i : Nat} (h : charAt s i ≠ some 'f') :
    litAt "fill:".data s i = false := by
  unfold litAt
  unfold charAt at h
  cases hd : s.drop i with
  | nil => simp [hd]
  | cons c rest =>
    rw [hd] at h
    simp only [List.head?_cons, ne_eq, Option.some.injEq] at h
    simp only [show "fill:".data = 'f' :: "ill:".data from rfl]
    simp [List.take, h]

theorem keyValAt_fill_none_after_run (s : Str) (q3 : Nat) :
    keyValAt "fill:".data s
      (q3 + runLen (fun c => !(c = '}')) s q3) = none := by
  set pEnd := q3 + runLen (fun c => !(c = '}')) s q3 with hpEnd
  have hfalse : litAt "fill:".data s pEnd = false := by
    apply litAt_fill_false
    intro hcf
    have := charAt_after_run (fun c => !(c = '}')) s q3 hcf
    simp at this
  unfold keyValAt
  rw [hfalse]
  simp

theorem firstSome_some {f : Nat → Option α} :
    ∀ {ps : List Nat} {x : α}, firstSome f ps = some x → ∃ p, f p = some x
  | [], x, h => by simp [firstSome] at h
  | p :: ps, x, h => by
    simp only [firstSome] at h
    cases hf : f p with
    | some y =>
      rw [hf] at h
      exact ⟨p, hf.trans h⟩
    | none =>
      rw [hf] at h
      exact firstSome_some h

theorem circleMatchAt_fill_none {s : Str} {i : Nat} {m : CircleM}
    (h : circleMatchAt s i = some m) : m.rawFill = none := by
  unfold circleMatchAt at h
  split at h
  · split at h
    · split at h
      · rcases firstSome_some h with ⟨p1, h1⟩
        split at h1
        · exact absurd h1 (by simp)
        · rcases firstSome_some h1 with ⟨p2, h2⟩
          split at h2
          · exact absurd h2 (by simp)
          · rcases firstSome_some h2 with ⟨p3, h3⟩
            split at h3
            · exact absurd h3 (by simp)
            · rw [keyValAt_fill_none_after_run] at h3
              cases h3
              rfl
      · exact absurd h (by simp)
    · exact absurd h (by simp)
  · exact absurd h (by simp)

theorem finditAux_mem {m : Nat → Option (α × Nat)} :
    ∀ {fuel i : Nat} {x : α}, x ∈ finditAux m fuel i → ∃ j e, m j = some (x, e)
  | 0, i, x, h => by simp [finditAux] at h
  | fuel + 1, i, x, h => by
    simp only [finditAux] at h
    cases hm : m i with
    | some ae =>
      obtain ⟨a, e⟩ := ae
      rw [hm] at h
      rcases List.mem_cons.mp h with h | h
      · exact ⟨i, e, by rw [hm, h]⟩
      · exact finditAux_mem h
    | none =>
      rw [hm] at h
      exact finditAux_mem h

theorem circleMatches_fill_none {s : Str} {m : CircleM} (hm : m ∈ circleMatches s) :
    m.rawFill = none := by
  rcases finditAux_mem hm with ⟨j, e, hj⟩
  rcases Option.map_eq_some'.mp hj with ⟨m', hm', hme⟩
  have : m' = m := congrArg Prod.fst hme
  exact circleMatchAt_fill_none (this ▸ hm')

/-- C2 (amended): in the compiled-component extractor a path fill that is
absent, contains a `var(` reference, or (after stripping) equals one of the
sentinels `void 0` / `fill` / `undefined` is emitted as the default `#333`;
every extracted circle's fill capture is `None` (the trailing greedy
`[^}]*` of the circle pattern makes the optional fill group unmatchable),
so circles always emit the default fill; the source-component extractor
normalizes `var()` fills and empty fills to the same default but leaves
sentinel-valued and absent fills unchanged (the change the counterexample
forces). -/
theorem claim_fill_normalization_amended :
    jsPathFill none = "#333".data
    ∧ (∀ g : Str,
        (strCont "var(".data (stripQuotes (pyStrip g)) = true
          ∨ stripQuotes (pyStrip g) = "void 0".data
          ∨ stripQuotes (pyStrip g) = "fill".data
          ∨ stripQuotes (pyStrip g) = "undefined".data) →
        jsPathFill (some g) = "#333".data)
    ∧ (∀ (s : Str), ∀ m ∈ circleMatches s,
        m.rawFill = none ∧ jsCircleFill m.rawFill = "#333".data)
    ∧ extract_svg_from_tsx varTsxInput = some varTsxOutput := by
  refine ⟨rfl, ?_, ?_, by decide⟩
  · intro g hg
    unfold jsPathFill
    rcases hg with h | h | h | h <;> simp [h]
  · intro s m hm
    have hnone := circleMatches_fill_none hm
    exact ⟨hnone, by rw [hnone]; rfl⟩

/-- Witness for the amended C2: a `var()` fill is normalized to the
default. -/
theorem claim_fill_normalization_amended_witness :
    jsPathFill (some " var(--x) ".data) = "#333".data :=
  claim_fill_normalization_amended.2.1 " var(--x) ".data (Or.inl (by decide))

/-! ### C5: bridging lemmas and the near-duplicate characterization -/

theorem fpStrOf_eq_iconFingerprint {icons : List (String × String)}
    (hnd : (icons.map Prod.fst).Nodup) (n : String) :
    fpStrOf (fingerprintsOf icons) n = iconFingerprint icons n := by
  unfold fpStrOf iconFingerprint
  rw [fingerprintsOf_alookup hnd n]
  cases hl : alookup icons n with
  | none =>
    decide
  | some svg =>
    show (Option.map compute_fingerprint
        (if normalize_paths svg = [] then none else some (normalize_paths svg))).getD ""
      = compute_fingerprint (normalize_paths svg)
    by_cases hp : normalize_paths svg = []
    · rw [if_pos hp, hp]
      decide
    · rw [if_neg hp]
      rfl

theorem mem_sorted_names_iff {icons : List (String × String)} (n : String) :
    n ∈ pySortStr ((fingerprintsOf icons).map Prod.fst)
      ↔ (alookup (fingerprintsOf icons) n).isSome = true := by
  rw [(pySortStr_perm _).mem_iff]
  exact alookup_isSome_iff.symm

theorem fpStrOf_ne_imp_isSome {fps : List (String × List String)} {n : String}
    (h : fpStrOf fps n ≠ "") : (alookup fps n).isSome = true := by
  cases hl : alookup fps n with
  | none => exact absurd (by simp [fpStrOf, hl]) h
  | some v => simp

theorem str_ne_empty_iff_pos {x : String} : x ≠ "" ↔ 0 < x.data.length := by
  constructor
  · intro h
    cases hd : x.data with
    | nil => exact absurd (string_eq_of_data (by rw [hd])) h
    | cons c l => simp [hd]
  · intro h heq
    rw [heq] at h
    simp at h

theorem names_pairwise_lt {icons : List (String × String)}
    (hnd : (icons.map Prod.fst).Nodup) :
    (pySortStr ((fingerprintsOf icons).map Prod.fst)).Pairwise
      (fun a b => strLtb a b = true) := by
  have h1 : ((fingerprintsOf icons).map Prod.fst).Nodup :=
    (fingerprintsOf_fst_sublist icons).nodup hnd
  have h2 : (pySortStr ((fingerprintsOf icons).map Prod.fst)).Nodup :=
    (pySortStr_perm _).symm.nodup h1
  have h3 := pySortStr_pairwise ((fingerprintsOf icons).map Prod.fst)
  exact (h3.and h2).imp (fun hab => strLtb_of_leb_ne hab.1 hab.2)

/-- C5: a pair appears in the near-duplicate results exactly when the two
names are in strict (code-point) order — in particular distinct — both
fingerprints are nonempty, the pair is not fully contained in one
exact-duplicate group, the length-ratio prefilter passes
(`min/max ≥ 0.4`, exactly: `2·max ≤ 5·min`), and the sequence similarity is
at least the 0.80 threshold (exactly: `4(la+lb) ≤ 10·M`); each reported
pair is tagged with the similarity rounded to 3 decimals (as exact
thousandths), and the result list is sorted by descending score. -/
theorem claim_near_duplicates_iff (icons : List (String × String))
    (hnd : (icons.map Prod.fst).Nodup) :
    (∀ a b : String, ∀ sc : Nat,
      ((a, b, sc) ∈ (find_redundant_groups icons).2 ↔
        (strLtb a b = true
         ∧ iconFingerprint icons a ≠ ""
         ∧ iconFingerprint icons b ≠ ""
         ∧ ¬ (∃ g ∈ (find_redundant_groups icons).1, a ∈ g ∧ b ∈ g)
         ∧ 2 * max (iconFingerprint icons a).data.length
               (iconFingerprint icons b).data.length
             ≤ 5 * min (iconFingerprint icons a).data.length
               (iconFingerprint icons b).data.length
         ∧ 4 * ((iconFingerprint icons a).data.length
               + (iconFingerprint icons b).data.length)
             ≤ 10 * seqMatchTotal (iconFingerprint icons a) (iconFingerprint icons b)
         ∧ sc = round3Thousandths
             (seqMatchTotal (iconFingerprint icons a) (iconFingerprint icons b))
             ((iconFingerprint icons a).data.length
               + (iconFingerprint icons b).data.length))))
    ∧ (find_redundant_groups icons).2.Pairwise (fun x y => y.2.2 ≤ x.2.2) := by
  constructor
  · intro a b sc
    rw [mem_nearPairs_iff]
    rw [show ((a, b, sc) : String × String × Nat).1 = a from rfl]
    rw [show ((a, b, sc) : String × String × Nat).2.1 = b from rfl]
    rw [pairsOf_mem_iff (names_pairwise_lt hnd)]
    rw [nearPairDecision_some_iff]
    rw [fpStrOf_eq_iconFingerprint hnd a, fpStrOf_eq_iconFingerprint hnd b]
    constructor
    · rintro ⟨⟨hna, hnb, hlt⟩, hfa, hsame, hfb, hlen, hsim, hsc⟩
      have ha0 : 0 < (iconFingerprint icons a).data.length := str_ne_empty_iff_pos.mp hfa
      have hb0 : 0 < (iconFingerprint icons b).data.length := str_ne_empty_iff_pos.mp hfb
      refine ⟨hlt, hfa, hfb, ?_, ?_, hsim, ?_⟩
      · intro hex
        exact hsame ((sameExactGroup_iff _ a b).mpr hex)
      · simp only [Bool.and_eq_true, decide_eq_true_eq, not_and, Nat.not_lt] at hlen
        exact hlen ⟨ha0, hb0⟩
      · have := congrArg (fun p : String × String × Nat => p.2.2) hsc
        simpa using this
    · rintro ⟨hlt, hfa, hfb, hnsame, hlen, hsim, hsc⟩
      have ha0 : 0 < (iconFingerprint icons a).data.length := str_ne_empty_iff_pos.mp hfa
      have hb0 : 0 < (iconFingerprint icons b).data.length := str_ne_empty_iff_pos.mp hfb
      have hna : a ∈ pySortStr ((fingerprintsOf icons).map Prod.fst) := by
        rw [mem_sorted_names_iff]
        exact fpStrOf_ne_imp_isSome (by rwa [fpStrOf_eq_iconFingerprint hnd a])
      have hnb : b ∈ pySortStr ((fingerprintsOf icons).map Prod.fst) := by
        rw [mem_sorted_names_iff]
        exact fpStrOf_ne_imp_isSome (by rwa [fpStrOf_eq_iconFingerprint hnd b])
      refine ⟨⟨hna, hnb, hlt⟩, hfa, ?_, hfb, ?_, hsim, ?_⟩
      · intro hsame
        exact hnsame ((sameExactGroup_iff _ a b).mp hsame)
      · simp only [Bool.and_eq_true, decide_eq_true_eq, not_and, Nat.not_lt]
        intro _
        exact hlen
      · rw [hsc]
  · show (sortDescBySim (nearPairsUnsorted icons)).Pairwise _
    exact sortDescBySim_pairwise _

/-- Witness for C5: the `C`/`D` pair of `sampleCatalog` is reported with
score `857` (0.857). -/
theorem claim_near_duplicates_iff_witness :
    ("C", "D", 857) ∈ (find_redundant_groups sampleCatalog).2 :=
  (((claim_near_duplicates_iff sampleCatalog (by decide)).1 "C" "D" 857).mpr (by decide))

/-! ### C7: catalog priority lemmas -/

theorem alookup_append_of_none [DecidableEq κ] :
    ∀ {m1 : List (κ × α)} {k : κ}, alookup m1 k = none →
      ∀ m2, alookup (m1 ++ m2) k = alookup m2 k
  | [], _, _, m2 => by simp
  | (k1, v1) :: rest, k, h, m2 => by
    simp only [alookup] at h
    by_cases hk : k = k1
    · simp [hk] at h
    · simp only [hk, if_false] at h
      simp only [List.cons_append, alookup, hk, if_false]
      exact alookup_append_of_none h m2

theorem alookup_append_cases [DecidableEq κ] {m1 m2 : List (κ × α)} {k : κ} {v : α}
    (h : alookup (m1 ++ m2) k = some v) :
    alookup m1 k = some v ∨ alookup m2 k = some v := by
  cases h1 : alookup m1 k with
  | some w =>
    rw [alookup_append_left h1] at h
    injection h with hwv
    exact Or.inl (by rw [hwv])
  | none =>
    rw [alookup_append_of_none h1 m2] at h
    exact Or.inr h

theorem pkgStep_preserves {icons : List (String × IconData)} {ec : String × String}
    {n : String} {v : IconData} (h : alookup icons n = some v) :
    alookup (pkgStep icons ec) n = some v := by
  unfold pkgStep
  by_cases hp : (alookup icons
      (String.mk ((get_exported_name ec.2.data).getD ec.1.data))).isSome = true
  · rw [if_pos hp]
    exact h
  · rw [if_neg hp]
    cases hx : extract_svg_from_js ec.2.data with
    | some svg => exact alookup_append_left h
    | none => exact h

theorem foldl_pkgStep_preserves :
    ∀ (entries : List (String × String)) {icons : List (String × IconData)}
      {n : String} {v : IconData}, alookup icons n = some v →
      alookup (entries.foldl pkgStep icons) n = some v
  | [], _, _, _, h => h
  | ec :: entries, icons, n, v, h => by
    rw [List.foldl_cons]
    exact foldl_pkgStep_preserves entries (pkgStep_preserves h)

theorem foldl_pkgStep_isSome {entries : List (String × String)}
    {icons : List (String × IconData)} {n : String}
    (h : (alookup icons n).isSome = true) :
    (alookup (entries.foldl pkgStep icons) n).isSome = true := by
  rcases Option.isSome_iff_exists.mp h with ⟨v, hv⟩
  rw [foldl_pkgStep_preserves entries hv]
  rfl

theorem pkgStep_inserts {icons : List (String × IconData)} {ec : String × String}
    {svg : Str} (hx : extract_svg_from_js ec.2.data = some svg) :
    (alookup (pkgStep icons ec)
      (String.mk ((get_exported_name ec.2.data).getD ec.1.data))).isSome = true := by
  unfold pkgStep
  by_cases hp : (alookup icons
      (String.mk ((get_exported_name ec.2.data).getD ec.1.data))).isSome = true
  · rw [if_pos hp]
    exact hp
  · rw [if_neg hp, hx]
    have hnone : alookup icons
        (String.mk ((get_exported_name ec.2.data).getD ec.1.data)) = none := by
      cases hl : alookup icons (String.mk ((get_exported_name ec.2.data).getD ec.1.data)) with
      | none => rfl
      | some w => exact absurd (by rw [hl]; rfl) hp
    rw [alookup_append_of_none hnone]
    simp [alookup]

theorem foldl_pkgStep_entry :
    ∀ (entries : List (String × String)) {icons : List (String × IconData)},
      ∀ e ∈ entries, ∀ svg : Str, extract_svg_from_js e.2.data = some svg →
      (alookup (entries.foldl pkgStep icons)
        (String.mk ((get_exported_name e.2.data).getD e.1.data))).isSome = true
  | [], _, e, he, _, _ => absurd he (List.not_mem_nil e)
  | ec :: entries, icons, e, he, svg, hx => by
    rw [List.foldl_cons]
    rcases List.mem_cons.mp he with he | he
    · subst he
      exact foldl_pkgStep_isSome (pkgStep_inserts hx)
    · exact foldl_pkgStep_entry entries e he svg hx

theorem foldl_pkgStep_source :
    ∀ (entries : List (String × String)) {icons : List (String × IconData)},
      (∀ n d, alookup icons n = some d → d.source = "anatomy-ui-core") →
      ∀ n d, alookup (entries.foldl pkgStep icons) n = some d →
        d.source = "anatomy-ui-core"
  | [], _, hinv, n, d, h => hinv n d h
  | ec :: entries, icons, hinv, n, d, h => by
    rw [List.foldl_cons] at h
    refine foldl_pkgStep_source entries ?_ n d h
    intro n' d' h'
    unfold pkgStep at h'
    by_cases hp : (alookup icons
        (String.mk ((get_exported_name ec.2.data).getD ec.1.data))).isSome = true
    · rw [if_pos hp] at h'
      exact hinv n' d' h'
    · rw [if_neg hp] at h'
      cases hx : extract_svg_from_js ec.2.data with
      | some svg =>
        rw [hx] at h'
        rcases alookup_append_cases h' with h' | h'
        · exact hinv n' d' h'
        · simp only [alookup] at h'
          by_cases hn : n' = String.mk ((get_exported_name ec.2.data).getD ec.1.data)
          · rw [if_pos hn] at h'
            have : (⟨String.mk svg, "anatomy-ui-core", []⟩ : IconData) = d' := by
              injection h'
            rw [← this]
          · rw [if_neg hn] at h'
            exact absurd h' (by simp [alookup])
      | none =>
        rw [hx] at h'
        exact hinv n' d' h'

theorem mergeCustomIcons_preserves :
    ∀ (custom : List (String × IconData)) {icons : List (String × IconData)}
      {n : String} {v : IconData}, alookup icons n = some v →
      alookup (mergeCustomIcons icons custom) n = some v
  | [], _, _, _, h => h
  | nd :: custom, icons, n, v, h => by
    unfold mergeCustomIcons
    rw [List.foldl_cons]
    refine mergeCustomIcons_preserves custom ?_
    by_cases hp : (alookup icons nd.1).isSome = true
    · rw [if_pos hp]
      exact h
    · rw [if_neg hp]
      exact alookup_append_left h

/-- C7: catalog building is priority-stable first-writer-wins.
(i) Every name present after the shared-package pass keeps its
shared-package binding in the final catalog — a custom component of the
same name is silently dropped, so the shared-package markup is the one in
the final catalog.  (ii) Every extractable shared-package entry's resolved
name is present after the package pass.  (iii) Every binding produced by
the package pass carries the shared-package provenance.  (iv) A
later-visited package entry never changes the binding of a name already
loaded (later copies are silently dropped). -/
theorem claim_catalog_first_writer_wins :
    (∀ (pkg : List (String × String)) (custom : List (String × String × String))
        (n : String),
      (alookup (load_package_icons pkg) n).isSome = true →
      alookup (buildCatalog pkg custom) n = alookup (load_package_icons pkg) n)
    ∧ (∀ (pkg : List (String × String)), ∀ e ∈ pkg, ∀ svg : Str,
        extract_svg_from_js e.2.data = some svg →
        (alookup (load_package_icons pkg)
          (String.mk ((get_exported_name e.2.data).getD e.1.data))).isSome = true)
    ∧ (∀ (pkg : List (String × String)) (n : String) (d : IconData),
        alookup (load_package_icons pkg) n = some d → d.source = "anatomy-ui-core")
    ∧ (∀ (pkg : List (String × String)) (e : String × String) (n : String),
        (alookup (load_package_icons pkg) n).isSome = true →
        alookup (load_package_icons (pkg ++ [e])) n
          = alookup (load_package_icons pkg) n) := by
  refine ⟨?_, ?_, ?_, ?_⟩
  · intro pkg custom n h
    rcases Option.isSome_iff_exists.mp h with ⟨v, hv⟩
    rw [hv]
    exact mergeCustomIcons_preserves _ hv
  · intro pkg e he svg hx
    exact foldl_pkgStep_entry pkg e he svg hx
  · intro pkg n d h
    refine foldl_pkgStep_source pkg ?_ n d h
    intro n' d' h'
    simp [alookup] at h'
  · intro pkg e n h
    rcases Option.isSome_iff_exists.mp h with ⟨v, hv⟩
    have h2 : load_package_icons (pkg ++ [e]) = pkgStep (load_package_icons pkg) e := by
      unfold load_package_icons
      rw [List.foldl_append, List.foldl_cons, List.foldl_nil]
    rw [h2, pkgStep_preserves hv, hv]

/-- Witness for C7: with the same name `Ico` exported both by two package
copies and by a custom component, the final catalog binding equals the
package-pass binding. -/
theorem claim_catalog_first_writer_wins_witness :
    alookup (buildCatalog samplePkgEntries sampleCustomEntries) "Ico"
      = alookup (load_package_icons samplePkgEntries) "Ico" :=
  claim_catalog_first_writer_wins.1 samplePkgEntries sampleCustomEntries "Ico" (by decide)

/-! ### C6: usage-scanning lemmas -/

theorem alookup_map_upd (used : List String) (app : String) :
    ∀ (icons : List (String × IconData)) (n : String) (d : IconData),
      alookup icons n = some d →
      alookup (icons.map (fun nd =>
        if decide (nd.1 ∈ used) = true then
          (nd.1, ⟨nd.2.svg, nd.2.source, nd.2.used_by ++ [app]⟩)
        else nd)) n
        = some (if n ∈ used then ⟨d.svg, d.source, d.used_by ++ [app]⟩ else d)
  | [], n, d, h => by simp [alookup] at h
  | (n1, d1) :: icons, n, d, h => by
    simp only [alookup] at h
    simp only [List.map_cons]
    by_cases hn : n = n1
    · subst hn
      rw [if_pos rfl] at h
      injection h with hd
      subst hd
      by_cases hu : n ∈ used
      · rw [if_pos (decide_eq_true hu)]
        simp [alookup, hu]
      · rw [if_neg (by simpa using hu)]
        simp [alookup, hu]
    · rw [if_neg hn] at h
      by_cases hu : (n1, d1).1 ∈ used
      · rw [if_pos (decide_eq_true hu)]
        simp only [alookup, hn, if_false]
        exact alookup_map_upd used app icons n d h
      · rw [if_neg (by simpa using hu)]
        simp only [alookup, hn, if_false]
        exact alookup_map_upd used app icons n d h

theorem applyAppUsage_lookup {icons : List (String × IconData)} {n : String}
    {d : IconData} (app : String) (files : List (String × String))
    (h : alookup icons n = some d) :
    alookup (applyAppUsage icons app files) n
      = some (if appUses n files = true
          then ⟨d.svg, d.source, d.used_by ++ [app]⟩ else d) := by
  unfold applyAppUsage
  rw [alookup_map_upd (scan_app_for_icons files (icons.map Prod.fst)) app icons n d h]
  have hmem : n ∈ icons.map Prod.fst := alookup_isSome_iff.mp (by rw [h]; rfl)
  have hiff : n ∈ scan_app_for_icons files (icons.map Prod.fst)
      ↔ appUses n files = true := by
    unfold scan_app_for_icons appUses
    rw [List.mem_filter]
    simp [hmem]
  rw [if_congr hiff rfl rfl]

theorem applyAppUsage_fst (icons : List (String × IconData)) (app : String)
    (files : List (String × String)) :
    (applyAppUsage icons app files).map Prod.fst = icons.map Prod.fst := by
  unfold applyAppUsage
  rw [List.map_map]
  refine List.map_congr_left ?_
  intro nd _
  by_cases hu : nd.1 ∈ scan_app_for_icons files (icons.map Prod.fst)
  · simp [hu]
  · simp [hu]

theorem applyAppUsage_none {icons : List (String × IconData)} {n : String}
    (app : String) (files : List (String × String))
    (h : alookup icons n = none) :
    alookup (applyAppUsage icons app files) n = none := by
  apply alookup_eq_none
  rw [applyAppUsage_fst]
  intro hmem
  have hs := alookup_isSome_iff.mpr hmem
  rw [h] at hs
  simp at hs

theorem scanAllApps_cons_none (icons : List (String × IconData)) (app : String)
    (apps : List (String × Option (List (String × String)))) :
    scanAllApps icons ((app, none) :: apps) = scanAllApps icons apps := rfl

theorem scanAllApps_cons_some (icons : List (String × IconData)) (app : String)
    (files : List (String × String))
    (apps : List (String × Option (List (String × String)))) :
    scanAllApps icons ((app, some files) :: apps)
      = scanAllApps (applyAppUsage icons app files) apps := rfl

theorem usageOf_cons_none (n app : String)
    (apps : List (String × Option (List (String × String)))) :
    usageOf n ((app, none) :: apps) = usageOf n apps := rfl

theorem usageOf_cons_some (n app : String) (files : List (String × String))
    (apps : List (String × Option (List (String × String)))) :
    usageOf n ((app, some files) :: apps)
      = if appUses n files then app :: usageOf n apps else usageOf n apps := rfl

theorem scanAllApps_lookup :
    ∀ (apps : List (String × Option (List (String × String))))
      (icons : List (String × IconData)) (n : String) (d : IconData),
      alookup icons n = some d →
      alookup (scanAllApps icons apps) n
        = some ⟨d.svg, d.source, d.used_by ++ usageOf n apps⟩
  | [], icons, n, d, h => by
      simpa [scanAllApps, usageOf] using h
  | (app, none) :: apps, icons, n, d, h => by
      rw [scanAllApps_cons_none, usageOf_cons_none]
      exact scanAllApps_lookup apps icons n d h
  | (app, some files) :: apps, icons, n, d, h => by
      rw [scanAllApps_cons_some, usageOf_cons_some]
      have h2 := applyAppUsage_lookup app files h
      by_cases hc : appUses n files = true
      · rw [if_pos hc] at h2
        rw [if_pos hc]
        rw [scanAllApps_lookup apps (applyAppUsage icons app files) n
          ⟨d.svg, d.source, d.used_by ++ [app]⟩ h2]
        simp [List.append_assoc]
      · rw [if_neg hc] at h2
        rw [if_neg hc]
        exact scanAllApps_lookup apps (applyAppUsage icons app files) n d h2

theorem usageOf_sublist (n : String) :
    ∀ apps : List (String × Option (List (String × String))),
      (usageOf n apps).Sublist (apps.map Prod.fst)
  | [] => List.Sublist.refl _
  | (app, none) :: apps => by
      rw [usageOf_cons_none]
      exact (usageOf_sublist n apps).cons app
  | (app, some files) :: apps => by
      rw [usageOf_cons_some]
      by_cases hc : appUses n files = true
      · rw [if_pos hc]
        exact (usageOf_sublist n apps).cons₂ app
      · rw [if_neg hc]
        exact (usageOf_sublist n apps).cons app

theorem mem_usageOf_iff (n app : String) :
    ∀ apps : List (String × Option (List (String × String))),
      app ∈ usageOf n apps
        ↔ ∃ files, (app, some files) ∈ apps ∧ appUses n files = true
  | [] => by simp [usageOf]
  | (a, none) :: apps => by
      rw [usageOf_cons_none, mem_usageOf_iff n app apps]
      constructor
      · rintro ⟨files, hmem, hu⟩
        exact ⟨files, List.mem_cons_of_mem _ hmem, hu⟩
      · rintro ⟨files, hmem, hu⟩
        rcases List.mem_cons.mp hmem with heq | hmem2
        · exact absurd (congrArg Prod.snd heq) (by simp)
        · exact ⟨files, hmem2, hu⟩
  | (a, some fs) :: apps => by
      rw [usageOf_cons_some]
      by_cases hc : appUses n fs = true
      · rw [if_pos hc]
        constructor
        · intro hm
          rcases List.mem_cons.mp hm with heq | hm2
          · subst heq
            exact ⟨fs, List.mem_cons_self _ _, hc⟩
          · rcases (mem_usageOf_iff n app apps).mp hm2 with ⟨files, h1, h2⟩
            exact ⟨files, List.mem_cons_of_mem _ h1, h2⟩
        · rintro ⟨files, hmem, hu⟩
          rcases List.mem_cons.mp hmem with heq | hm2
          · injection heq with h1 h2
            subst h1
            exact List.mem_cons_self _ _
          · exact List.mem_cons_of_mem _ ((mem_usageOf_iff n app apps).mpr ⟨files, hm2, hu⟩)
      · rw [if_neg hc]
        constructor
        · intro hm
          rcases (mem_usageOf_iff n app apps).mp hm with ⟨files, h1, h2⟩
          exact ⟨files, List.mem_cons_of_mem _ h1, h2⟩
        · rintro ⟨files, hmem, hu⟩
          rcases List.mem_cons.mp hmem with heq | hm2
          · injection heq with h1 h2
            injection h2 with h3
            exact absurd (h3 ▸ hu) hc
          · exact (mem_usageOf_iff n app apps).mpr ⟨files, hm2, hu⟩

/-- **C6.** For every catalog icon (looked up by name, with an initially empty
`used_by`) and distinct application names, after step 3 of `main`
(`scanAllApps`) the icon keeps its svg and source; an application whose
source tree exists (`(app, some files) ∈ apps`) appears in the icon's
`used_by` if and only if the icon's name occurs as a substring of the content
of at least one scanned file of matching extension in that application's
tree; and the resulting `used_by` has no duplicate application names. -/
theorem claim_used_by_characterization
    (icons : List (String × IconData))
    (apps : List (String × Option (List (String × String))))
    (n : String) (d : IconData)
    (hlook : alookup icons n = some d)
    (hinit : d.used_by = [])
    (hnd : (apps.map Prod.fst).Nodup) :
    ∃ d2 : IconData, alookup (scanAllApps icons apps) n = some d2 ∧
      d2.svg = d.svg ∧ d2.source = d.source ∧
      (∀ app files, (app, some files) ∈ apps →
        (app ∈ d2.used_by ↔
          ∃ fc ∈ files, scanExtOk fc.1.data = true ∧ strCont n.data fc.2.data = true)) ∧
      d2.used_by.Nodup := by
  refine ⟨⟨d.svg, d.source, d.used_by ++ usageOf n apps⟩,
    scanAllApps_lookup apps icons n d hlook, rfl, rfl, ?_, ?_⟩
  · intro app files hmem
    show app ∈ d.used_by ++ usageOf n apps ↔ _
    rw [hinit, List.nil_append, mem_usageOf_iff n app apps]
    constructor
    · rintro ⟨files2, hmem2, hu2⟩
      have e : files2 = files := by
        have a1 := alookup_of_mem_nodup hnd hmem
        have a2 := alookup_of_mem_nodup hnd hmem2
        rw [a1] at a2
        injection a2 with e2
        injection e2 with e3
        exact e3.symm
      rw [e] at hu2
      have hu3 : files.any (fun fc => scanExtOk fc.1.data && strCont n.data fc.2.data) = true := hu2
      rcases List.any_eq_true.mp hu3 with ⟨fc, hfc, hp⟩
      rw [Bool.and_eq_true] at hp
      exact ⟨fc, hfc, hp.1, hp.2⟩
    · rintro ⟨fc, hfc, hext, hsub⟩
      refine ⟨files, hmem, ?_⟩
      show files.any (fun fc => scanExtOk fc.1.data && strCont n.data fc.2.data) = true
      exact List.any_eq_true.mpr ⟨fc, hfc, by rw [Bool.and_eq_true]; exact ⟨hext, hsub⟩⟩
  · show (d.used_by ++ usageOf n apps).Nodup
    rw [hinit, List.nil_append]
    exact List.Nodup.sublist (usageOf_sublist n apps) hnd

/-- Witness for C6: the sample catalog with icon `Ico` and two applications,
one of which is skipped because its source tree is missing. -/
theorem claim_used_by_characterization_witness :
    ∃ d2 : IconData, alookup (scanAllApps sampleIcons0 sampleApps) "Ico" = some d2 ∧
      d2.svg = "s" ∧ d2.source = "anatomy-ui-core" ∧
      (∀ app files, (app, some files) ∈ sampleApps →
        (app ∈ d2.used_by ↔
          ∃ fc ∈ files, scanExtOk fc.1.data = true ∧
            strCont "Ico".data fc.2.data = true)) ∧
      d2.used_by.Nodup :=
  claim_used_by_characterization sampleIcons0 sampleApps "Ico"
    ⟨"s", "anatomy-ui-core", []⟩ rfl rfl (by decide)
